import Mathlib

/-!
# Verification of the chunked transcript-processing pipeline

Shallow embedding of the core of `transcript_pipeline` (files
`chunked_processor.py`, `segmenter.py`, `litellm_processing.py`,
`custom_prompts.py`) and proofs about it.

Conventions:
* Python strings are Lean `String` / `List Char`; `len` is `String.length`.
* Python `float` arithmetic (always arising here as ratios of character
  counts) is modelled as exact rational arithmetic over `ℚ`; `int(x)`
  (truncation toward zero) is `pyInt`.
* Python exceptions are modelled with `Option`/`Except`; code that catches
  all exceptions becomes a total function.
* `os.environ` is modelled as a function `String → Option String`
  (`none` = variable unset).
-/

namespace TranscriptPipeline

/-- Python `int()` applied to a rational: truncation toward zero. -/
def pyInt (q : ℚ) : ℤ := if 0 ≤ q then ⌊q⌋ else -⌊-q⌋

theorem pyInt_of_nonneg {q : ℚ} (h : 0 ≤ q) : pyInt q = ⌊q⌋ := by
  simp [pyInt, h]

/-- The character class of Python's `\s` regex escape (and of `str.strip`)
restricted to the characters that occur in this pipeline's data
(ASCII whitespace). -/
def isPySpace (c : Char) : Bool :=
  c = ' ' || c = '\t' || c = '\n' || c = '\r' || c = '\x0b' || c = '\x0c'

/-- Python `str.strip()`: remove leading and trailing whitespace. -/
def pyStrip (l : List Char) : List Char :=
  ((l.dropWhile isPySpace).reverse.dropWhile isPySpace).reverse

/-!
## LengthPlanner: per-chunk acceptance bounds

From `chunked_processor.py` lines 1483–1496 (chapter-aligned path) and
lines 1865–1873 (fixed-size path); the same three-way branch on the global
scaling factor appears verbatim in both places:

```python
if scaling_factor < 0.7:       # significant condensation
    min_target_length = int(target_chunk_length * 0.7)
    max_target_length = int(target_chunk_length * 1.3)
elif scaling_factor > 1.3:     # significant expansion
    min_target_length = int(target_chunk_length * 0.8)
    max_target_length = int(target_chunk_length * 1.2)
else:                          # minor adjustments
    min_target_length = int(target_chunk_length * 0.9)
    max_target_length = int(target_chunk_length * 1.1)
```
-/

/-- `(min_target_length, max_target_length)` for a per-chunk target length
`t` (a character count) under global scaling factor `scalingFactor`. -/
def computeChunkBounds (scalingFactor : ℚ) (t : ℕ) : ℤ × ℤ :=
  if scalingFactor < 0.7 then
    (pyInt ((t : ℚ) * 0.7), pyInt ((t : ℚ) * 1.3))
  else if 1.3 < scalingFactor then
    (pyInt ((t : ℚ) * 0.8), pyInt ((t : ℚ) * 1.2))
  else
    (pyInt ((t : ℚ) * 0.9), pyInt ((t : ℚ) * 1.1))

theorem chunkBounds_min_le (f : ℚ) (t : ℕ) (hf : 0 ≤ f) (hf1 : f ≤ 1) :
    pyInt ((t : ℚ) * f) ≤ (t : ℤ) := by
  have h0 : (0 : ℚ) ≤ (t : ℚ) * f := mul_nonneg (by positivity) hf
  rw [pyInt_of_nonneg h0]
  have : (t : ℚ) * f ≤ (t : ℚ) := by
    calc (t : ℚ) * f ≤ (t : ℚ) * 1 := by
          exact mul_le_mul_of_nonneg_left hf1 (by positivity)
      _ = (t : ℚ) := mul_one _
  calc ⌊(t : ℚ) * f⌋ ≤ ⌊(t : ℚ)⌋ := Int.floor_le_floor this
    _ = (t : ℤ) := Int.floor_natCast t

theorem chunkBounds_le_max (f : ℚ) (t : ℕ) (hf1 : 1 ≤ f) :
    (t : ℤ) ≤ pyInt ((t : ℚ) * f) := by
  have h0 : (0 : ℚ) ≤ (t : ℚ) * f := mul_nonneg (by positivity) (le_trans zero_le_one hf1)
  rw [pyInt_of_nonneg h0]
  refine Int.le_floor.mpr ?_
  push_cast
  calc (t : ℚ) = (t : ℚ) * 1 := (mul_one _).symm
    _ ≤ (t : ℚ) * f := mul_le_mul_of_nonneg_left hf1 (by positivity)

/-- C6: whenever the per-chunk acceptance bounds are computed, the
per-chunk target length lies between them: for every nonnegative integer
target `t`, `min_target_length ≤ t ≤ max_target_length`, where the bounds
are `int(t·f_lo)` and `int(t·f_hi)` with `(f_lo, f_hi)` equal to
`(0.7, 1.3)` when `scalingFactor < 0.7`, `(0.8, 1.2)` when
`scalingFactor > 1.3`, and `(0.9, 1.1)` otherwise. -/
theorem c6_chunk_bounds_bracket_target (scalingFactor : ℚ) (t : ℕ) :
    (computeChunkBounds scalingFactor t).1 ≤ (t : ℤ) ∧
      (t : ℤ) ≤ (computeChunkBounds scalingFactor t).2 := by
  unfold computeChunkBounds
  split
  · exact ⟨chunkBounds_min_le _ t (by norm_num) (by norm_num),
      chunkBounds_le_max _ t (by norm_num)⟩
  · split
    · exact ⟨chunkBounds_min_le _ t (by norm_num) (by norm_num),
        chunkBounds_le_max _ t (by norm_num)⟩
    · exact ⟨chunkBounds_min_le _ t (by norm_num) (by norm_num),
        chunkBounds_le_max _ t (by norm_num)⟩

/-!
## ExpansionRewriter: proportional segmentation

From `_process_with_expansion_chapters`, `chunked_processor.py` lines
1029–1047:

```python
max_chapter_size = 15000  # API output limit per call
required_chapters = math.ceil(target_length / max_chapter_size)
segment_size = original_length / required_chapters
segments = []
for i in range(required_chapters):
    start_char = int(i * segment_size)
    end_char = int(min((i + 1) * segment_size, original_length))
    segments.append({"chapter_num": i + 1, "start_char": start_char,
                     "end_char": end_char,
                     "text": transcript_text[start_char:end_char]})
```

The float arithmetic is modelled bit-exactly as IEEE-754 binary64 (every
value arising here is a normal double, far from overflow and underflow, so
a 53-bit round-to-nearest-even significand with an unbounded exponent is
exact): CPython `int / int` true division is the correctly rounded
quotient of the two exact integers, `int * float` converts the int to the
nearest double and multiplies with a single rounding, `min` compares the
exact values of a float and an int, and `int()` / `math.ceil()` of a
float are exact.
-/

/-- One entry of the `segments` list built by the expansion path
(the `"text"` field, a pure slice `transcript_text[start_char:end_char]`,
is determined by the two offsets and is omitted). -/
structure ExpSegment where
  chapterNum : ℕ
  startChar : ℤ
  endChar : ℤ
  deriving Repr, DecidableEq

/-- Floor of `log₂ n` (0 at 0 and 1), by fuel recursion with fuel `n`. -/
def log2Aux : ℕ → ℕ → ℕ
  | 0, _ => 0
  | fuel + 1, n => if n ≤ 1 then 0 else log2Aux fuel (n / 2) + 1

/-- Floor of `log₂ n`. -/
def natLog2 (n : ℕ) : ℕ := log2Aux n n

/-- `2 ^ k ≤ a / b` for naturals `a`, `b > 0` and an integer `k`,
decided exactly by scaling the smaller side. -/
def le2pow (a b : ℕ) (k : ℤ) : Bool :=
  if 0 ≤ k then decide (b * 2 ^ k.toNat ≤ a)
  else decide (b ≤ a * 2 ^ (-k).toNat)

/-- A nonnegative binary64 value `m * 2 ^ e`.  The mantissa of a freshly
rounded value has at most 53 bits (54 only as the exact power
`2 ^ 53 * 2 ^ e` after a round-up); the exponent is unbounded, which is
exact here because no value of this pipeline approaches overflow or
underflow. -/
structure Fp where
  m : ℕ
  e : ℤ
  deriving Repr, DecidableEq

/-- Round the nonnegative rational `a / b` to the nearest binary64 value
(53 significant bits, ties to even).  `natLog2 a - natLog2 b - 1` brackets
`⌊log₂ (a/b)⌋` within one, and `le2pow` settles which; the significand is
then the rounded integer quotient at that scale.  CPython `int / int` is
exactly this correctly rounded quotient.  `b = 0` (Python
`ZeroDivisionError`, unreachable in every use below) is mapped to 0. -/
def roundToDbl (a b : ℕ) : Fp :=
  if a = 0 ∨ b = 0 then ⟨0, 0⟩
  else
    let k0 : ℤ := (natLog2 a : ℤ) - (natLog2 b : ℤ) - 1
    let f : ℤ := if le2pow a b (k0 + 1) then k0 + 1 else k0
    let e : ℤ := f - 52
    let n : ℕ := if 0 ≤ e then a else a * 2 ^ (-e).toNat
    let d : ℕ := if 0 ≤ e then b * 2 ^ e.toNat else b
    let m0 : ℕ := n / d
    let r : ℕ := n % d
    ⟨if 2 * r < d then m0
      else if d < 2 * r then m0 + 1
      else if m0 % 2 = 0 then m0 else m0 + 1, e⟩

/-- The nearest binary64 value to the integer `n` (exact for `n < 2^53`):
Python converting an int operand of a float operation. -/
def fpOfNat (n : ℕ) : Fp := roundToDbl n 1

/-- Binary64 multiplication: the product of the exact values, rounded
once. -/
def fpMul (x y : Fp) : Fp :=
  let r := roundToDbl (x.m * y.m) 1
  ⟨r.m, r.e + x.e + y.e⟩

/-- Python `int()` of a nonnegative double: exact truncation. -/
def fpToInt (x : Fp) : ℕ :=
  if 0 ≤ x.e then x.m * 2 ^ x.e.toNat else x.m / 2 ^ (-x.e).toNat

/-- Exact comparison `x ≤ n` of a nonnegative double with an int —
Python compares the exact values, with no rounding. -/
def fpLeNat (x : Fp) (n : ℕ) : Bool :=
  if 0 ≤ x.e then decide (x.m * 2 ^ x.e.toNat ≤ n)
  else decide (x.m ≤ n * 2 ^ (-x.e).toNat)

/-- `math.ceil` of a nonnegative double: exact. -/
def fpCeil (x : Fp) : ℕ :=
  if 0 ≤ x.e then x.m * 2 ^ x.e.toNat
  else (x.m + 2 ^ (-x.e).toNat - 1) / 2 ^ (-x.e).toNat

/-- Python `int(min(x, L))` for a nonnegative double `x` and an int `L`:
`min` compares the exact values and keeps the smaller operand, then
`int()` truncates (`int(L) = L`). -/
def intMinFpNat (x : Fp) (L : ℕ) : ℕ :=
  if fpLeNat x L then fpToInt x else L

/-- `required_chapters = math.ceil(target_length / 15000)` (line 1031),
the division in binary64. -/
def requiredChapters (targetLength : ℕ) : ℕ :=
  fpCeil (roundToDbl targetLength 15000)

/-- The segment list built by `_process_with_expansion_chapters`
(lines 1034–1047): `segment_size` is the correctly rounded double
`original_length / required_chapters`; each bound multiplies it by the
(converted) loop index in binary64 and truncates. -/
def expansionSegments (originalLength targetLength : ℕ) : List ExpSegment :=
  let N := requiredChapters targetLength
  let s := roundToDbl originalLength N
  (List.range N).map fun i =>
    { chapterNum := i + 1
      startChar := (fpToInt (fpMul (fpOfNat i) s) : ℤ)
      endChar := (intMinFpNat (fpMul (fpOfNat (i + 1)) s) originalLength : ℤ) }

set_option maxRecDepth 4000 in
/-- C3: REFUTED of the program as written — under bit-exact binary64
arithmetic the expansion path does NOT always partition
`[0, sourceLength)`.  For `sourceLength = 1` and `targetLength = 720001`
(scaling factor `720001.0 > 1.0`, so the expansion path is selected) the
code computes `required_chapters = 49` and
`segment_size = fl(1/49) = 0.02040816326530612…`, and `49 * segment_size`
rounds to `0.9999999999999999 < 1`, so
`int(min(49 * segment_size, 1)) = 0`: every one of the 49 segments is the
empty span `[0, 0)`, the last segment does not end at `sourceLength`, and
the one-character source text is never covered by any segment. -/
theorem c3_expansion_source_not_covered :
    (expansionSegments 1 720001).length = 49 ∧
    ∀ s ∈ expansionSegments 1 720001, s.startChar = 0 ∧ s.endChar = 0 := by
  constructor
  · decide
  · decide

/-!
## Orchestrator: final global trim

From `process`, `chunked_processor.py` lines 329–401:

```python
max_acceptable_length = expected_length + 50000
if processed_transcript_length > max_acceptable_length:
    chapter_pattern = re.compile(r'^Chapter \d+', re.MULTILINE)
    chapter_matches = list(chapter_pattern.finditer(processed_transcript))
    if len(chapter_matches) > 1:
        # chapters[i] spans [match[i].start(), match[i+1].start() or len)
        chapters_to_keep = len(chapters)
        trimmed_length = processed_transcript_length
        while trimmed_length > max_acceptable_length and chapters_to_keep > 1:
            chapters_to_keep -= 1
            trimmed_length -= chapters[chapters_to_keep]['size']
        if chapters_to_keep < len(chapters):
            processed_transcript = processed_transcript[:chapters[chapters_to_keep]['start']]
        # else: unchanged (warning only)
    # else: unchanged (warning only)
# else: unchanged
return processed_transcript
```

A match of `^Chapter \d+` in MULTILINE mode starts at a position that is
`0` or preceded by a newline and is followed by the literal `"Chapter "`
and at least one digit; since a match never contains a newline, distinct
line-anchored heading positions never overlap, so the set of `finditer`
match starts equals the set of all such positions.
-/

/-- Strip `pre` from the front of `l`, or fail. -/
def dropLeading : List Char → List Char → Option (List Char)
  | [], l => some l
  | _ :: _, [] => none
  | p :: ps, c :: cs => if p = c then dropLeading ps cs else none

/-- Does `l` begin with `"Chapter "` followed by a digit
(the regex `Chapter \d+` anchored at the front)? -/
def startsWithChapterNum (l : List Char) : Bool :=
  match dropLeading "Chapter ".toList l with
  | some (c :: _) => c.isDigit
  | _ => false

/-- Match starts of `^Chapter \d+` under `re.MULTILINE`, ascending. -/
def chapterHeadStarts (cs : List Char) : List ℕ :=
  (List.range cs.length).filter fun p =>
    (decide (p = 0) || decide (cs[p - 1]? = some '\n')) &&
      startsWithChapterNum (cs.drop p)

/-- The `while` loop dropping trailing chapters: returns the final
`chapters_to_keep`.  `sizes` are the chapter sizes in order. -/
def trimLoop (sizes : List ℤ) (maxAcc : ℤ) : ℕ → ℤ → ℕ
  | 0, _ => 0
  | 1, _ => 1
  | keep + 2, trimmed =>
    if maxAcc < trimmed then
      trimLoop sizes maxAcc (keep + 1) (trimmed - ((sizes[keep + 1]?).getD 0))
    else keep + 2

/-- The whole-chapter removal applied when the text exceeds the ceiling and
at least 2 chapter headings are present. -/
def finalTrimCore (targetLength : ℕ) (cs : List Char) : List Char :=
  let n := cs.length
  let starts := chapterHeadStarts cs
  let ends := starts.drop 1 ++ [n]
  let sizes := (starts.zip ends).map fun p => (p.2 : ℤ) - (p.1 : ℤ)
  let keep := trimLoop sizes ((targetLength + 50000 : ℕ) : ℤ) starts.length (n : ℤ)
  if keep < starts.length then cs.take ((starts[keep]?).getD 0)
  else cs

/-- The final global trim step of `process` (lines 329–401). -/
def finalTrim (targetLength : ℕ) (text : String) : String :=
  if text.toList.length ≤ targetLength + 50000 then text
  else if (chapterHeadStarts text.toList).length ≤ 1 then text
  else String.mk (finalTrimCore targetLength text.toList)

/-- C2: the final global-trim step returns the text unchanged whenever its
length is at most `targetLength + 50000` characters, and also whenever
fewer than 2 lines matching the chapter-heading pattern are present; hence
re-running the trim on text already within that ceiling is a no-op. -/
theorem c2_final_trim_noop (targetLength : ℕ) (text : String)
    (h : text.length ≤ targetLength + 50000 ∨
      (chapterHeadStarts text.toList).length < 2) :
    finalTrim targetLength text = text := by
  unfold finalTrim
  rcases h with h | h
  · have hlen : text.toList.length ≤ targetLength + 50000 := h
    rw [if_pos hlen]
  · by_cases hlen : text.toList.length ≤ targetLength + 50000
    · rw [if_pos hlen]
    · have h1 : (chapterHeadStarts text.toList).length ≤ 1 := by omega
      rw [if_neg hlen, if_pos h1]

/-- Witness for C2: a short text is returned unchanged. -/
theorem c2_final_trim_noop_witness :
    "hello world".length ≤ 0 + 50000 ∧ finalTrim 0 "hello world" = "hello world" :=
  ⟨by decide, c2_final_trim_noop 0 "hello world" (Or.inl (by decide))⟩

/-!
## ChunkRewriter: retry / fallback state machine

From `_process_with_chapter_aligned_chunks`, `chunked_processor.py` lines
1541–1726, and `_process_chunks_with_continuity`, lines 1932–2095.  The two
loops are textually near-identical:

```python
success = False; retries = 0; processed_chunk = None
while not success and retries < self.max_retries:
    try:
        processed_chunk = process_llm(...)
        output_length = len(processed_chunk)
        if output_length < min_target_length:
            ...; retries += 1; continue
        if not is_last_chunk and output_length > max_target_length:
            ...; retries += 1; continue
        success = True
        processed_chunks.append(processed_chunk)
    except Exception as e:
        retries += 1; time.sleep(2)
if not success:
    try:
        simple_prompt = create_simplified_fallback_prompt(
            chunk_text=..., target_length=target_chunk_length, ...)
        processed_chunk = process_llm(context=..., system_prompt=simple_prompt, ...)
        processed_chunks.append(processed_chunk)
    except Exception as e:
        processed_chunk = f"[Processing failed for this section. Original content preserved.]\n\n{chunk_text}"
        processed_chunks.append(processed_chunk)
```

The external generator is modelled as an oracle: `attempts k` is the
result of the `k`-th `process_llm` call of the retry loop (`none` = the
call raised), `fallback` is the result of the single simplified-fallback
call.  The fallback call receives `target_length=target_chunk_length`, the
same per-chunk length target the retry loop used; all exceptions are
caught, so the per-chunk processing is a total function.
-/

/-- Oracle for one chunk's generator calls. -/
structure GenBehavior where
  attempts : ℕ → Option String
  fallback : Option String

/-- The failure notice prefixed to the preserved original text
(lines 1702 and 2068). -/
def failNotice : String :=
  "[Processing failed for this section. Original content preserved.]"

/-- Length validation (lines 1591–1616 and 1961–1975): reject when below
`min_target_length`; reject when above `max_target_length` unless this is
the last chunk. -/
def chunkLengthOk (isLast : Bool) (minT maxT : ℤ) (len : ℕ) : Bool :=
  !(decide ((len : ℤ) < minT)) && (isLast || !(decide (maxT < (len : ℤ))))

/-- The retry loop; `fuel` is the remaining attempt budget
(`max_retries − retries`) and `k` the attempt index.  Returns the accepted
output, or `none` when every attempt raised or failed validation. -/
def attemptLoop (g : GenBehavior) (isLast : Bool) (minT maxT : ℤ) :
    ℕ → ℕ → Option String
  | 0, _ => none
  | fuel + 1, k =>
    match g.attempts k with
    | none => attemptLoop g isLast minT maxT fuel (k + 1)
    | some s =>
      if chunkLengthOk isLast minT maxT s.length then some s
      else attemptLoop g isLast minT maxT fuel (k + 1)

/-- The single output appended to `processed_chunks` for one chunk:
accepted output, else simplified-fallback output, else the original chunk
text behind the failure notice and a blank line. -/
def processChunkWithFallback (maxRetries : ℕ) (g : GenBehavior)
    (isLast : Bool) (minT maxT : ℤ) (chunkText : String) : String :=
  match attemptLoop g isLast minT maxT maxRetries 0 with
  | some s => s
  | none =>
    match g.fallback with
    | some s => s
    | none => failNotice ++ "\n\n" ++ chunkText

/-- Everything determining one chunk's processing: its generator oracle,
last-chunk flag, acceptance bounds and source text. -/
structure ChunkSpec where
  gen : GenBehavior
  isLast : Bool
  minT : ℤ
  maxT : ℤ
  text : String

/-- The `processed_chunks` list accumulated over the chunk loop. -/
def processChunksPath (maxRetries : ℕ) (chunks : List ChunkSpec) : List String :=
  chunks.map fun c =>
    processChunkWithFallback maxRetries c.gen c.isLast c.minT c.maxT c.text

theorem attemptLoop_all_fail (g : GenBehavior) (isLast : Bool) (minT maxT : ℤ)
    (hfail : ∀ k s, g.attempts k = some s →
      chunkLengthOk isLast minT maxT s.length = false) :
    ∀ fuel k, attemptLoop g isLast minT maxT fuel k = none := by
  intro fuel
  induction fuel with
  | zero => intro k; rfl
  | succ n ih =>
    intro k
    unfold attemptLoop
    cases hk : g.attempts k with
    | none => exact ih (k + 1)
    | some s =>
      show (if chunkLengthOk isLast minT maxT s.length = true then some s
        else attemptLoop g isLast minT maxT n (k + 1)) = none
      rw [hfail k s hk]
      simpa using ih (k + 1)

/-- C1: in the chapter-aligned and fixed-size paths, every chunk produces
exactly one output appended to the result list in chunk order (the result
list has one entry per chunk); if all generation attempts fail validation
or raise and the single simplified-fallback call (issued with the same
per-chunk length target) also raises, the chunk's appended output equals
the original chunk source text prefixed with
`"[Processing failed for this section. Original content preserved.]"` and
a blank line.  The per-chunk processing is a total function, so no chunk
is dropped and no failure escapes the job. -/
theorem c1_no_chunk_dropped (maxRetries : ℕ) (chunks : List ChunkSpec)
    (i : ℕ) (c : ChunkSpec) (hc : chunks[i]? = some c)
    (hfail : ∀ k s, c.gen.attempts k = some s →
      chunkLengthOk c.isLast c.minT c.maxT s.length = false)
    (hfb : c.gen.fallback = none) :
    (processChunksPath maxRetries chunks).length = chunks.length ∧
    (processChunksPath maxRetries chunks)[i]? =
      some (failNotice ++ "\n\n" ++ c.text) := by
  constructor
  · simp [processChunksPath]
  · have hone : processChunkWithFallback maxRetries c.gen c.isLast c.minT
        c.maxT c.text = failNotice ++ "\n\n" ++ c.text := by
      unfold processChunkWithFallback
      rw [attemptLoop_all_fail c.gen c.isLast c.minT c.maxT hfail, hfb]
    simp [processChunksPath, List.getElem?_map, hc, hone]

/-- Witness for C1: one chunk whose every generator call raises ends as the
preserved original, and the output list still has one entry. -/
theorem c1_no_chunk_dropped_witness :
    (processChunksPath 3 [⟨⟨fun _ => none, none⟩, false, 0, 10, "src text"⟩]).length = 1 ∧
    (processChunksPath 3 [⟨⟨fun _ => none, none⟩, false, 0, 10, "src text"⟩])[0]? =
      some (failNotice ++ "\n\n" ++ "src text") := by
  have h := c1_no_chunk_dropped 3
    [⟨⟨fun _ => none, none⟩, false, 0, 10, "src text"⟩] 0
    ⟨⟨fun _ => none, none⟩, false, 0, 10, "src text"⟩ rfl
    (fun _ s hs => Option.noConfusion hs) rfl
  exact ⟨h.1, h.2⟩

/-!
## ExpansionRewriter: per-segment validation and retry loop

From `_process_with_expansion_chapters`, `chunked_processor.py` lines
1106–1196:

```python
success = False; retries = 0; chapter_text = None
while not success and retries < self.max_retries:
    try:
        new_chapter_text = process_llm(...)
        chapter_text = new_chapter_text
        output_length = len(chapter_text)
        min_target_length = int(max_chapter_size * 0.7)
        max_target_length = int(max_chapter_size * 1.7)
        if output_length < min_target_length:
            ...; retries += 1; continue
        if output_length > max_target_length:
            ...; retries += 1; continue
        success = True
    except Exception as e:
        retries += 1; time.sleep(2)
if not success and chapter_text:
    ...  # use last generated output
elif not chapter_text:
    chapter_text = f"Chapter {chapter_num}\n\n[Unable to generate content for this chapter]\n\n{segment['text']}"
...
chunks_info.append({..., "all_retries_failed": not success})
```

Unlike the chapter-aligned and fixed-size loops, the upper-bound check has
no `is_last` exemption: the last segment is validated against
`max_target_length` too.  `max_chapter_size` is the constant 15000.
-/

/-- Python `int(15000 * 0.7)` (line 1131), under exact arithmetic. -/
def expansionMinTarget : ℤ := pyInt ((15000 : ℚ) * 0.7)

/-- Python `int(15000 * 1.7)` (line 1132), under exact arithmetic. -/
def expansionMaxTarget : ℤ := pyInt ((15000 : ℚ) * 1.7)

/-- Expansion-path length validation (lines 1134–1152): both bounds are
enforced for every segment, the last one included. -/
def expansionLengthOk (len : ℕ) : Bool :=
  !(decide ((len : ℤ) < expansionMinTarget)) &&
    !(decide (expansionMaxTarget < (len : ℤ)))

/-- The expansion retry loop.  Returns `(accepted?, chapter_text)`: the
accepted output if validation ever passed, and the last generated output. -/
def expansionAttemptLoop (g : ℕ → Option String) :
    ℕ → ℕ → Option String → Option String × Option String
  | 0, _, last => (none, last)
  | fuel + 1, k, last =>
    match g k with
    | none => expansionAttemptLoop g fuel (k + 1) last
    | some s =>
      if expansionLengthOk s.length then (some s, some s)
      else expansionAttemptLoop g fuel (k + 1) (some s)

/-- One expansion segment's final text plus the recorded
`all_retries_failed` flag. -/
structure ExpSegResult where
  text : String
  allRetriesFailed : Bool

/-- The post-loop selection (lines 1162–1196): accepted output when
validation passed, else the last generated output, else the placeholder
built from the untouched segment text. -/
def expansionFinish (chapterNum : ℕ) (segmentText : String) :
    Option String × Option String → ExpSegResult
  | (some s, _) => { text := s, allRetriesFailed := false }
  | (none, some s) => { text := s, allRetriesFailed := true }
  | (none, none) =>
      { text := "Chapter " ++ toString chapterNum ++
          "\n\n[Unable to generate content for this chapter]\n\n" ++ segmentText
        allRetriesFailed := true }

/-- Per-segment processing of the expansion path (lines 1106–1196). -/
def expansionProcessSegment (maxRetries : ℕ) (g : ℕ → Option String)
    (chapterNum : ℕ) (segmentText : String) : ExpSegResult :=
  expansionFinish chapterNum segmentText (expansionAttemptLoop g maxRetries 0 none)

theorem expansionAttemptLoop_reject_aux (s : String)
    (h : expansionLengthOk s.length = false) :
    ∀ fuel k, expansionAttemptLoop (fun _ => some s) fuel k (some s) =
      (none, some s) := by
  intro fuel
  induction fuel with
  | zero => intro k; rfl
  | succ n ih =>
    intro k
    unfold expansionAttemptLoop
    show (if expansionLengthOk s.length = true then (some s, some s)
      else expansionAttemptLoop (fun _ => some s) n (k + 1) (some s)) =
        (none, some s)
    rw [h]
    simpa using ih (k + 1)

theorem expansionAttemptLoop_reject (s : String)
    (h : expansionLengthOk s.length = false) (fuel k : ℕ) (last : Option String)
    (hf : fuel ≠ 0) :
    expansionAttemptLoop (fun _ => some s) fuel k last = (none, some s) := by
  cases fuel with
  | zero => exact absurd rfl hf
  | succ n =>
    unfold expansionAttemptLoop
    show (if expansionLengthOk s.length = true then (some s, some s)
      else expansionAttemptLoop (fun _ => some s) n (k + 1) (some s)) =
        (none, some s)
    rw [h]
    simpa using expansionAttemptLoop_reject_aux s h n (k + 1)

/-- A generated output of 25501 characters. -/
def overlongOutput : String := String.mk (List.replicate 25501 'a')

/-- C5 counterexample: in the expansion path, a last segment whose every
generated output has 25501 characters — above the maximum bound
`int(15000·1.7) = 25500` but above the minimum — is rejected and retried on
every attempt, ending with `all_retries_failed`; so it is not true that in
every processing path the last span is exempt from the upper bound. -/
theorem c5_counterexample :
    expansionMinTarget ≤ (overlongOutput.length : ℤ) ∧
    expansionMaxTarget < (overlongOutput.length : ℤ) ∧
    expansionLengthOk overlongOutput.length = false ∧
    (expansionProcessSegment 3 (fun _ => some overlongOutput) 4
        "segment source").allRetriesFailed = true := by
  have hlen : overlongOutput.length = 25501 := by
    have h0 : overlongOutput.length = (List.replicate 25501 'a').length := rfl
    rw [h0, List.length_replicate]
  have hmin : expansionMinTarget = 10500 := by
    have h : (15000 : ℚ) * 0.7 = ((10500 : ℤ) : ℚ) := by norm_num
    rw [expansionMinTarget, pyInt_of_nonneg (by norm_num), h, Int.floor_intCast]
  have hmax : expansionMaxTarget = 25500 := by
    have h : (15000 : ℚ) * 1.7 = ((25500 : ℤ) : ℚ) := by norm_num
    rw [expansionMaxTarget, pyInt_of_nonneg (by norm_num), h, Int.floor_intCast]
  have hok : expansionLengthOk overlongOutput.length = false := by
    simp [expansionLengthOk, hlen, hmin, hmax]
  refine ⟨by rw [hlen, hmin]; norm_num, by rw [hlen, hmax]; norm_num, hok, ?_⟩
  unfold expansionProcessSegment
  rw [expansionAttemptLoop_reject overlongOutput hok 3 0 none (by decide)]
  rfl

/-- C5 (amended): in the chapter-aligned and fixed-size paths the last
chunk is validated against the minimum bound only (an output exceeding the
maximum is never rejected there), while earlier chunks are validated
against both bounds; in the expansion path both bounds are enforced for
every segment, the last included. -/
theorem c5_amended_last_span_bounds (minT maxT : ℤ) (len : ℕ) :
    (chunkLengthOk true minT maxT len = true ↔ minT ≤ (len : ℤ)) ∧
    (chunkLengthOk false minT maxT len = true ↔
      minT ≤ (len : ℤ) ∧ (len : ℤ) ≤ maxT) ∧
    (expansionLengthOk len = true ↔
      expansionMinTarget ≤ (len : ℤ) ∧ (len : ℤ) ≤ expansionMaxTarget) := by
  refine ⟨?_, ?_, ?_⟩ <;>
    simp [chunkLengthOk, expansionLengthOk, not_lt]

/-!
## Generator adapter: credential check and mock mode

From `litellm_processing.py`.  `process_llm` (lines 58–93) begins:

```python
_check_api_key_for_model(model)            # may raise ValueError
formatted_model = _format_model_name(model)
if os.environ.get("MOCK_LLM_API") == "true":
    return f"Mock processed text using {formatted_model}: {context[:100]}..."
# ... otherwise: network retry loop (out of modelled scope)
```

together with `_format_model_name` (lines 242–272) and
`_check_api_key_for_model` (lines 274–307).  The environment is a function
`String → Option String`; Python truthiness of `os.environ.get(k)` is
`envTruthy` (`None` and `""` are falsy).  `context[:100]` slices the first
100 characters.
-/

/-- Is `pre` an initial run of `l`? -/
def leadsWith : List Char → List Char → Bool
  | [], _ => true
  | _ :: _, [] => false
  | a :: as, b :: bs => a = b && leadsWith as bs

/-- Python `needle in hay` on strings: contiguous-subsequence test. -/
def containsSeq (needle : List Char) : List Char → Bool
  | [] => leadsWith needle []
  | c :: cs => leadsWith needle (c :: cs) || containsSeq needle cs

/-- Python `needle in hay` lifted to `String`. -/
def strContains (hay needle : String) : Bool :=
  containsSeq needle.toList hay.toList

/-- Python `str.lower()` (the model identifiers here are ASCII). -/
def lowerStr (s : String) : String := String.mk (s.toList.map Char.toLower)

/-- Truthiness of `os.environ.get(k)`: set and non-empty. -/
def envTruthy : Option String → Bool
  | none => false
  | some s => s ≠ ""

/-- The OpenAI model-name keywords tested by both
`_format_model_name` and `_check_api_key_for_model`. -/
def openaiKeywords : List String :=
  ["gpt", "text-davinci", "babbage", "curie", "ada", "davinci"]

/-- Model-name routing of `_format_model_name` (lines 242–272). -/
def formatModelName (model : String) : String :=
  if strContains model "/" then model
  else if openaiKeywords.any fun k => strContains (lowerStr model) k then model
  else if strContains (lowerStr model) "gemini" then "gemini/" ++ model
  else if strContains (lowerStr model) "claude" ||
      strContains (lowerStr model) "anthropic" then model
  else if strContains (lowerStr model) "deepseek" then "deepseek/" ++ model
  else model

/-- Provider detection of `_check_api_key_for_model` (lines 284–300):
the provider label and the environment variable it requires, or `none`
for an unrecognized provider (no check performed).  For Gemini the key
name is `GEMINI_API_KEY` when that variable is itself set (truthy), else
`GOOGLE_API_KEY`. -/
def providerAndKey (env : String → Option String) (model : String) :
    Option (String × String) :=
  if openaiKeywords.any fun k => strContains (lowerStr model) k then
    some ("openai", "OPENAI_API_KEY")
  else if strContains (lowerStr model) "gemini" then
    some ("gemini",
      if envTruthy (env "GEMINI_API_KEY") then "GEMINI_API_KEY"
      else "GOOGLE_API_KEY")
  else if strContains (lowerStr model) "claude" ||
      strContains (lowerStr model) "anthropic" then
    some ("anthropic", "ANTHROPIC_API_KEY")
  else if strContains (lowerStr model) "deepseek" then
    some ("deepseek", "DEEPSEEK_API_KEY")
  else none

/-- The `ValueError` message raised on a missing key (line 305). -/
def missingKeyMsg (keyName provider model : String) : String :=
  "Missing " ++ keyName ++ " for " ++ provider ++ " model: " ++ model

/-- `_check_api_key_for_model` (lines 274–307). -/
def checkApiKeyForModel (env : String → Option String) (model : String) :
    Except String Unit :=
  match providerAndKey env model with
  | none => .ok ()
  | some (provider, keyName) =>
    if envTruthy (env keyName) then .ok ()
    else .error (missingKeyMsg keyName provider model)

/-- What the head of `process_llm` does before any network call. -/
inductive LlmOutcome where
  | raised (msg : String)
  | mock (s : String)
  | realCall (formattedModel : String)
  deriving DecidableEq, Repr

/-- Lines 82–93 of `process_llm`: credential check, model formatting, then
the mock-mode early return; otherwise the (out-of-scope) network loop. -/
def processLlmHead (env : String → Option String) (context model : String) :
    LlmOutcome :=
  match checkApiKeyForModel env model with
  | .error msg => .raised msg
  | .ok () =>
    let formatted := formatModelName model
    if env "MOCK_LLM_API" = some "true" then
      .mock ("Mock processed text using " ++ formatted ++ ": " ++
        String.mk (context.toList.take 100) ++ "...")
    else .realCall formatted

/-- C10: the credential check precedes the mock-mode check: for every
environment (the mock flag included) and every model of a recognized
provider whose required API-key variable is unset or empty, `process_llm`
raises the `ValueError` before producing any output — mock mode does not
bypass the credential requirement. -/
theorem c10_credentials_before_mock (env : String → Option String)
    (context model provider keyName : String)
    (hpk : providerAndKey env model = some (provider, keyName))
    (hmissing : envTruthy (env keyName) = false) :
    processLlmHead env context model =
      .raised (missingKeyMsg keyName provider model) := by
  unfold processLlmHead checkApiKeyForModel
  rw [hpk]
  simp [hmissing]

/-- Witness for C10: environment with `MOCK_LLM_API=true` and no
`OPENAI_API_KEY`; `process_llm` for `gpt-4` raises instead of mocking. -/
theorem c10_credentials_before_mock_witness :
    (fun k => if k = "MOCK_LLM_API" then some "true" else none) "MOCK_LLM_API"
        = some "true" ∧
    providerAndKey (fun k => if k = "MOCK_LLM_API" then some "true" else none)
        "gpt-4" = some ("openai", "OPENAI_API_KEY") ∧
    processLlmHead (fun k => if k = "MOCK_LLM_API" then some "true" else none)
        "some context" "gpt-4" =
      .raised (missingKeyMsg "OPENAI_API_KEY" "openai" "gpt-4") := by
  refine ⟨rfl, by decide, ?_⟩
  exact c10_credentials_before_mock _ "some context" "gpt-4" "openai"
    "OPENAI_API_KEY" (by decide) (by decide)

/-- An environment with mock mode on and the OpenAI key present. -/
def mockEnv : String → Option String := fun k =>
  if k = "MOCK_LLM_API" then some "true"
  else if k = "OPENAI_API_KEY" then some "sk-test" else none

/-- C9 counterexample: in mock mode the output is not independent of the
input — with the same model (`gpt-4`) and system prompt, the inputs
`"AAA"` and `"BBB"` produce different mock outputs, each embedding the
first 100 characters of its input. -/
theorem c9_counterexample :
    processLlmHead mockEnv "AAA" "gpt-4" =
      .mock "Mock processed text using gpt-4: AAA..." ∧
    processLlmHead mockEnv "BBB" "gpt-4" =
      .mock "Mock processed text using gpt-4: BBB..." ∧
    processLlmHead mockEnv "AAA" "gpt-4" ≠ processLlmHead mockEnv "BBB" "gpt-4" := by
  refine ⟨by decide, by decide, by decide⟩

/-- C9 (amended): the mock-mode output is a fixed template depending on
the input only through its first 100 characters (and on the model, never
on the system prompt): any two inputs agreeing on their first 100
characters produce identical outcomes. -/
theorem c9_amended_mock_first100 (env : String → Option String)
    (model x y : String) (hxy : x.toList.take 100 = y.toList.take 100) :
    processLlmHead env x model = processLlmHead env y model := by
  unfold processLlmHead
  cases checkApiKeyForModel env model with
  | error msg => rfl
  | ok u =>
    cases u
    by_cases hm : env "MOCK_LLM_API" = some "true"
    · simp only [hm, if_pos, hxy]
    · simp only [if_neg hm]

/-- Witness for C9 (amended): two 101-character inputs differing only in
their last character get identical mock outputs. -/
theorem c9_amended_mock_first100_witness :
    (String.mk (List.replicate 100 'a' ++ ['X'])).toList.take 100 =
      (String.mk (List.replicate 100 'a' ++ ['Y'])).toList.take 100 ∧
    processLlmHead mockEnv (String.mk (List.replicate 100 'a' ++ ['X'])) "gpt-4" =
      processLlmHead mockEnv (String.mk (List.replicate 100 'a' ++ ['Y'])) "gpt-4" := by
  have htake : ∀ c : Char,
      (String.mk (List.replicate 100 'a' ++ [c])).toList.take 100 =
        List.replicate 100 'a' := by
    intro c
    have h0 : (String.mk (List.replicate 100 'a' ++ [c])).toList =
        List.replicate 100 'a' ++ [c] := rfl
    rw [h0]
    exact List.take_left' (by simp)
  have heq := (htake 'X').trans (htake 'Y').symm
  exact ⟨heq, c9_amended_mock_first100 mockEnv "gpt-4" _ _ heq⟩

/-!
## StructureIndex parser: `_parse_master_document`

From `chunked_processor.py` lines 404–535.  The primary pass is

```python
chapter_pattern = r"\*?\*?Chapter\s+(\d+)(?:\s*[:-]\s*|\s+)([^(]*?)(?:\s*\([^)]+\))?(?:\*?\*?)(?:\n\n|\n|\Z)((?:(?!\*?\*?Chapter\s+\d+(?:\s*[:-]\s*|\s+))[\s\S])*)"
chapter_matches = re.finditer(chapter_pattern, master_document, re.DOTALL)
chapters = [{"number": int(m.group(1)), "title": m.group(2).strip(),
             "description": m.group(3).strip() if m.group(3) else "", ...}
            for m in chapter_matches]
chapters.sort(key=lambda x: x["number"])
```

and, only when that yields zero chapters, the fallback pass

```python
simple_pattern = r"Chapter\s+(\d+)[^\n]*\n"
positions = [(int(m.group(1)), m.start()) for m in re.finditer(simple_pattern, master_document)]
positions.sort()
for i, (num, pos) in enumerate(positions):
    end_pos = positions[i+1][1] if i < len(positions)-1 else len(master_document)
    text = master_document[pos:end_pos].strip()
    title_match = re.search(r"Chapter\s+\d+[:-]?\s*([^\n]+)", text)
    title = title_match.group(1).strip() if title_match else f"Unknown Chapter {num}"
    lines = text.split("\n", 1)
    description = lines[1].strip() if len(lines) > 1 else ""
    chapters.append({"number": num, "title": title, "description": description, ...})
```

The regexes are hand-compiled into total functions below.  Where a
quantifier is followed by a disjoint character class, greedy matching is
maximal-munch and needs no backtracking (noted at each site); the one
place backtracking is observable — the lazy title `([^(]*?)` interacting
with the greedy `\s*` before it, the optional paren group after it and the
two optional asterisks — is enumerated in exactly the regex engine's
order: longer `\s*` splits first, shorter titles first, paren group
matched before skipped, more asterisks before fewer, `\n\n` before `\n`
before `\Z`.  The final `((?:(?!…)[\s\S])*)` is a greedy star whose body
consumes one character wherever the chapter-heading lookahead fails; the
star is last in the pattern, so it deterministically stops at the first
lookahead success (or the end of the input).
-/

/-- The literal word `"Chapter"`. -/
def chapterWord : List Char := ['C', 'h', 'a', 'p', 't', 'e', 'r']

/-- Value of `int(...)` on a digit string (`m.group(1)`). -/
def digitsToNat (ds : List Char) : ℕ :=
  ds.foldl (fun a c => 10 * a + (c.toNat - '0'.toNat)) 0

/-- Matcher for `(?:\n\n|\n|\Z)`.  `\n\n` is preferred to `\n`; `\Z`
(end of input) applies only to the empty remainder, which the newline
branches never match, so the alternation is order-independent except
between the two newline branches. -/
def newlineAlt (l : List Char) : Option (List Char) :=
  match l with
  | [] => some []
  | c :: rest =>
    if c = '\n' then
      match rest with
      | c2 :: rest2 => if c2 = '\n' then some rest2 else some rest
      | [] => some rest
    else none

/-- Matcher for `\*?\*?` followed by `f`: the regex engine tries consuming
two asterisks, then one, then none. -/
def starsThen (f : List Char → Option α) (l : List Char) : Option α :=
  match l with
  | c :: c2 :: rest =>
    if c = '*' then
      if c2 = '*' then f rest <|> f (c2 :: rest) <|> f (c :: c2 :: rest)
      else f (c2 :: rest) <|> f (c :: c2 :: rest)
    else f (c :: c2 :: rest)
  | [c] => if c = '*' then f [] <|> f [c] else f [c]
  | [] => f []

/-- Matcher for `Chapter\s+(\d+)`: the literal word, one-or-more
whitespace, one-or-more digits.  Greedy `\s+` and `\d+` are maximal-munch:
digits are not whitespace and the characters that may follow the digits
(`\s`, `[:-]`) are not digits. -/
def chapterNumCore (cs : List Char) : Option (List Char × List Char) :=
  match dropLeading chapterWord cs with
  | none => none
  | some r1 =>
    match r1 with
    | c :: _ =>
      if isPySpace c then
        match r1.dropWhile isPySpace with
        | d :: _ =>
          if d.isDigit then
            some ((r1.dropWhile isPySpace).takeWhile Char.isDigit,
              (r1.dropWhile isPySpace).dropWhile Char.isDigit)
          else none
        | [] => none
      else none
    | [] => none

/-- Matcher for `\s*[:-]` (the committed part of separator branch A):
maximal-munch is forced because `:` and `-` are not whitespace.  Returns
the remainder after the separator character. -/
def sepColonDash (cs : List Char) : Option (List Char) :=
  match cs.dropWhile isPySpace with
  | c :: rest => if c = ':' || c = '-' then some rest else none
  | [] => none

/-- Existence test for `(?:\s*[:-]\s*|\s+)` (used inside the negative
lookahead, where only success matters: the trailing `\s*` of branch A
always succeeds). -/
def lookaheadSep (cs : List Char) : Bool :=
  (sepColonDash cs).isSome ||
    (match cs with
     | c :: _ => isPySpace c
     | [] => false)

/-- The part of the negative-lookahead body after the optional
asterisks. -/
def lookaheadCore (r : List Char) : Option Unit :=
  match chapterNumCore r with
  | some (_, rest) => if lookaheadSep rest then some () else none
  | none => none

/-- The negative-lookahead body `\*?\*?Chapter\s+\d+(?:\s*[:-]\s*|\s+)`. -/
def lookaheadChapter (cs : List Char) : Bool :=
  (starsThen lookaheadCore cs).isSome

/-- The description star `((?:(?!lookahead)[\s\S])*)`: consume characters
up to the first position where the chapter-heading lookahead succeeds (or
the end); returns (consumed, remainder). -/
def takeDesc : List Char → List Char × List Char
  | [] => ([], [])
  | c :: cs =>
    if lookaheadChapter (c :: cs) then ([], c :: cs)
    else
      let p := takeDesc cs
      (c :: p.1, p.2)

/-- Matcher for the greedy optional `(?:\s*\([^)]+\))?`, attempt branch:
`\s*` is maximal-munch because `(` is not whitespace; `[^)]+` is
maximal-munch because `)` is excluded from the class. -/
def parenGroup (cs : List Char) : Option (List Char) :=
  match cs.dropWhile isPySpace with
  | c :: rest =>
    if c = '(' then
      if (rest.takeWhile (fun d => d ≠ ')')).isEmpty then none
      else
        match rest.dropWhile (fun d => d ≠ ')') with
        | d :: rest2 => if d = ')' then some rest2 else none
        | [] => none
    else none
  | [] => none

/-- What must follow the lazy title:
`(?:\s*\([^)]+\))?(?:\*?\*?)(?:\n\n|\n|\Z)`; the optional paren group is
greedy (matched before skipped). -/
def afterTitle (cs : List Char) : Option (List Char) :=
  (parenGroup cs >>= fun r => starsThen newlineAlt r) <|> starsThen newlineAlt cs

/-- The lazy title `([^(]*?)` followed by `afterTitle`: shortest titles
first; the class `[^(]` stops the title at any `(`. -/
def titleLoop : List Char → List Char → Option (List Char × List Char)
  | acc, [] =>
    (match afterTitle [] with
     | some rest => some (acc.reverse, rest)
     | none => none)
  | acc, c :: cs' =>
    (match afterTitle (c :: cs') with
     | some rest => some (acc.reverse, rest)
     | none => if c = '(' then none else titleLoop (c :: acc) cs')

theorem titleLoop_cons_some (acc : List Char) (c : Char) (cs' r : List Char)
    (h : afterTitle (c :: cs') = some r) :
    titleLoop acc (c :: cs') = some (acc.reverse, r) := by
  unfold titleLoop
  rw [h]

theorem titleLoop_cons_none (acc : List Char) (c : Char) (cs' : List Char)
    (h : afterTitle (c :: cs') = none) :
    titleLoop acc (c :: cs') =
      if c = '(' then none else titleLoop (c :: acc) cs' := by
  conv_lhs => unfold titleLoop
  rw [h]

/-- Greedy `\s*` before `f`: try the maximal whitespace run first, then
shorter splits.  `k` is the number of whitespace characters still allowed
to be consumed. -/
def greedyWsDescend (f : List Char → Option α) (cs : List Char) : ℕ → Option α
  | 0 => f cs
  | k + 1 =>
    match f (cs.drop (k + 1)) with
    | some r => some r
    | none => greedyWsDescend f cs k

/-- Greedy `\s+` before `f` (separator branch B): at least one whitespace
character, longest runs first. -/
def greedyWsDescendPos (f : List Char → Option α) (cs : List Char) :
    ℕ → Option α
  | 0 => none
  | k + 1 =>
    match f (cs.drop (k + 1)) with
    | some r => some r
    | none => greedyWsDescendPos f cs k

/-- The heading after the optional asterisks:
`Chapter\s+(\d+)(?:\s*[:-]\s*|\s+)([^(]*?)(?:\s*\([^)]+\))?(?:\*?\*?)(?:\n\n|\n|\Z)`.
Returns (number digits, raw title, remainder).  Separator branch A
(`\s*[:-]\s*`) is explored in full — its trailing `\s*` greedily, the
title lazily — before branch B (`\s+`). -/
def headingAfterStars (cs : List Char) :
    Option (List Char × List Char × List Char) :=
  match chapterNumCore cs with
  | none => none
  | some (ds, r) =>
    let branchA : Option (List Char × List Char) :=
      match sepColonDash r with
      | some r2 => greedyWsDescend (titleLoop []) r2
          (r2.takeWhile isPySpace).length
      | none => none
    match branchA <|> greedyWsDescendPos (titleLoop []) r
        (r.takeWhile isPySpace).length with
    | some (title, rest) => some (ds, title, rest)
    | none => none

/-- A whole primary-pattern heading attempt at one position. -/
def matchChapterHeading (cs : List Char) :
    Option (List Char × List Char × List Char) :=
  starsThen headingAfterStars cs

/-- One parsed chapter record (the fields the claims are about; the
positional bookkeeping fields of the Python dict are determined by the
match and unused by the claims). -/
structure Chapter where
  number : ℕ
  title : List Char
  description : List Char
  deriving Repr, DecidableEq

/-- `re.finditer` over the primary pattern: scan left to right, emit each
match, resume at its end.  Raw output: (number, raw title, raw
description). -/
def scanChapters : ℕ → List Char → List (ℕ × List Char × List Char)
  | 0, _ => []
  | _ + 1, [] => []
  | fuel + 1, c :: cs =>
    match matchChapterHeading (c :: cs) with
    | some (ds, title, rest) =>
      let p := takeDesc rest
      (digitsToNat ds, title, p.1) :: scanChapters fuel p.2
    | none => scanChapters fuel cs

/-- The primary pass: matches with `.strip()` applied to title and
description. -/
def parsePrimary (cs : List Char) : List Chapter :=
  (scanChapters (cs.length + 1) cs).map fun t =>
    { number := t.1, title := pyStrip t.2.1, description := pyStrip t.2.2 }

/-- Python `list.sort(key=...)` is stable; a stable insertion sort by
chapter number. -/
def insertChapterByNumber (c : Chapter) : List Chapter → List Chapter
  | [] => [c]
  | d :: ds =>
    if c.number ≤ d.number then c :: d :: ds
    else d :: insertChapterByNumber c ds

/-- Stable sort of the primary chapters by number (line 442). -/
def sortChaptersByNumber : List Chapter → List Chapter
  | [] => []
  | c :: cs => insertChapterByNumber c (sortChaptersByNumber cs)

/-- Fallback heading `Chapter\s+(\d+)[^\n]*\n` at one position
(`[^\n]*` is maximal-munch because `\n` is excluded from the class).
Returns (number, remainder after the newline). -/
def fallbackHeadingHere (cs : List Char) : Option (ℕ × List Char) :=
  match chapterNumCore cs with
  | none => none
  | some (ds, r) =>
    match r.dropWhile (fun c => c ≠ '\n') with
    | c :: r2 => if c = '\n' then some (digitsToNat ds, r2) else none
    | [] => none

/-- `re.finditer` over the fallback pattern, recording
`(int(m.group(1)), m.start())`. -/
def scanFallback : ℕ → ℕ → List Char → List (ℕ × ℕ)
  | 0, _, _ => []
  | _ + 1, _, [] => []
  | fuel + 1, pos, c :: cs =>
    match fallbackHeadingHere (c :: cs) with
    | some (n, rest) =>
      (n, pos) :: scanFallback fuel (pos + ((c :: cs).length - rest.length)) rest
    | none => scanFallback fuel (pos + 1) cs

/-- `positions.sort()` on `(number, start)` tuples: stable insertion sort
in lexicographic order. -/
def insertPairLex (p : ℕ × ℕ) : List (ℕ × ℕ) → List (ℕ × ℕ)
  | [] => [p]
  | q :: qs =>
    if p.1 < q.1 ∨ (p.1 = q.1 ∧ p.2 ≤ q.2) then p :: q :: qs
    else q :: insertPairLex p qs

/-- Sorted `(number, start)` pairs of the fallback pass. -/
def sortPairsLex : List (ℕ × ℕ) → List (ℕ × ℕ)
  | [] => []
  | p :: ps => insertPairLex p (sortPairsLex ps)

/-- `\s*([^\n]+)` — the tail of the fallback title pattern.  The greedy
`\s*` (which can cross newlines) descends from its maximal run; `[^\n]+`
is maximal-munch (class excludes `\n`) and must be non-empty. -/
def titleTail (cs : List Char) : Option (List Char) :=
  greedyWsDescend (fun r =>
    let t := r.takeWhile (fun c => c ≠ '\n')
    if t.isEmpty then none else some t) cs (cs.takeWhile isPySpace).length

/-- `Chapter\s+\d+[:-]?\s*([^\n]+)` at one position: after the digits the
optional `[:-]` is tried consumed first, then skipped. -/
def fallbackTitleHere (cs : List Char) : Option (List Char) :=
  match chapterNumCore cs with
  | none => none
  | some (_, r) =>
    match r with
    | c :: rest =>
      if c = ':' || c = '-' then titleTail rest <|> titleTail r
      else titleTail r
    | [] => titleTail r

/-- `re.search` of the fallback title pattern: first matching position. -/
def searchFallbackTitle : ℕ → List Char → Option (List Char)
  | 0, _ => none
  | _ + 1, [] => none
  | fuel + 1, c :: cs =>
    match fallbackTitleHere (c :: cs) with
    | some t => some t
    | none => searchFallbackTitle fuel cs

/-- `text.split("\n", 1)[1]` when a newline exists. -/
def afterFirstNewline : List Char → Option (List Char)
  | [] => none
  | c :: cs => if c = '\n' then some cs else afterFirstNewline cs

/-- The fallback chapter construction (lines 491–526). -/
def buildFallbackChapters (master : List Char) : List (ℕ × ℕ) → List Chapter
  | [] => []
  | (num, pos) :: rest =>
    let endPos := match rest with
      | (_, p2) :: _ => p2
      | [] => master.length
    let text := pyStrip ((master.drop pos).take (endPos - pos))
    let title := match searchFallbackTitle (text.length + 1) text with
      | some t => pyStrip t
      | none => "Unknown Chapter ".toList ++ (toString num).toList
    let description := match afterFirstNewline text with
      | some tl => pyStrip tl
      | none => []
    { number := num, title := title, description := description } ::
      buildFallbackChapters master rest

/-- `_parse_master_document` (lines 404–535): the primary regex pass,
sorted by chapter number; when it finds nothing, the fallback pass over
number-sorted heading positions. -/
def parseMasterDocument (master : String) : List Chapter :=
  if (sortChaptersByNumber (parsePrimary master.toList)).isEmpty then
    buildFallbackChapters master.toList
      (sortPairsLex (scanFallback (master.toList.length + 1) 0 master.toList))
  else sortChaptersByNumber (parsePrimary master.toList)

/-!
## Orchestrator: processing-path selection

From `process`, `chunked_processor.py` lines 307–327:

```python
if scaling_factor > 1.0:
    processed_transcript = self._process_with_expansion_chapters(...)
elif self.use_chapter_aligned_chunking:
    processed_transcript = self._process_with_chapter_aligned_chunks(...)
else:
    processed_transcript = self._process_chunks_with_continuity(...)
```

and the fallback inside `_process_with_chapter_aligned_chunks`, lines
1435–1443:

```python
chapters = self._parse_master_document(master_document)
if not chapters:
    return self._process_chunks_with_continuity(...)
```
-/

/-- The three processing strategies. -/
inductive ProcPath where
  | expansion
  | chapterAligned
  | fixedSize
  deriving DecidableEq, Repr

/-- The effective path selection: the `process` dispatch composed with the
empty-structure fallback of the chapter-aligned path. -/
def selectPath (scalingFactor : ℚ) (useChapterAligned : Bool)
    (masterDocument : String) : ProcPath :=
  if 1 < scalingFactor then .expansion
  else if useChapterAligned then
    if (parseMasterDocument masterDocument).isEmpty then .fixedSize
    else .chapterAligned
  else .fixedSize

/-- C4: `process` selects exactly one of three paths — the expansion path
iff `scalingFactor > 1.0`; otherwise the chapter-aligned path when
chapter-aligned chunking is enabled and master-document parsing yields at
least one chapter; otherwise the fixed-size path.  In particular, when
both parsing passes yield zero chapters the job switches to the fixed-size
path (the selection is a total function — no exception is raised). -/
theorem c4_path_selection (sf : ℚ) (ca : Bool) (md : String) :
    (selectPath sf ca md = .expansion ↔ 1 < sf) ∧
    (¬ 1 < sf → ca = true → parseMasterDocument md ≠ [] →
      selectPath sf ca md = .chapterAligned) ∧
    (¬ 1 < sf → (ca = false ∨ parseMasterDocument md = []) →
      selectPath sf ca md = .fixedSize) := by
  refine ⟨?_, ?_, ?_⟩
  · constructor
    · intro h
      by_contra hsf
      unfold selectPath at h
      rw [if_neg hsf] at h
      by_cases hca : ca
      · rw [if_pos hca] at h
        by_cases he : (parseMasterDocument md).isEmpty
        · rw [if_pos he] at h; exact ProcPath.noConfusion h
        · rw [if_neg he] at h; exact ProcPath.noConfusion h
      · rw [if_neg hca] at h; exact ProcPath.noConfusion h
    · intro h
      unfold selectPath
      rw [if_pos h]
  · intro hsf hca hne
    unfold selectPath
    rw [if_neg hsf, if_pos (by rw [hca]),
      if_neg (by simpa [List.isEmpty_iff] using hne)]
  · intro hsf h
    unfold selectPath
    rw [if_neg hsf]
    rcases h with h | h
    · rw [if_neg (by simp [h])]
    · by_cases hca : ca
      · rw [if_pos (by rw [hca]), if_pos (by simpa [List.isEmpty_iff] using h)]
      · rw [if_neg (by simp [hca])]

/-- Witness for C4: with scaling factor 1/2, chapter-aligned chunking
enabled, and a master document in which both parsing passes find zero
chapters, the fixed-size path is selected. -/
theorem c4_path_selection_witness :
    ¬ (1 : ℚ) < 1 / 2 ∧
    parseMasterDocument "no structure here" = [] ∧
    selectPath (1 / 2) true "no structure here" = .fixedSize := by
  refine ⟨by norm_num, by decide, ?_⟩
  exact (c4_path_selection (1 / 2) true "no structure here").2.2 (by norm_num)
    (Or.inr (by decide))

/-!
## Round-trip correctness of the primary master-document parse (claim C8)

A well-formed master document is a list of blocks
`"Chapter k: Title (range)\n\n<description>"` joined by blank lines.  The
block data and its well-formedness conditions follow the claim's input
shape; everything else below is proved about the parser functions above.
-/

/-- The data of one well-formed block.  The chapter number is carried as
its digit string; `Block.number` is the parsed value. -/
structure Block where
  numDigits : List Char
  title : List Char
  range : List Char
  desc : List Char
  deriving Repr, DecidableEq

/-- `int(m.group(1))` of the block's heading. -/
def Block.number (b : Block) : ℕ := digitsToNat b.numDigits

/-- Well-formedness of one block: a non-empty digit string; a non-empty
title containing no `(`, newline or asterisk, not starting or ending in
whitespace; a non-empty parenthesized range without `)`; a non-empty
description that neither starts nor ends with whitespace and does not
contain the word `Chapter`. -/
def WellFormedBlock (b : Block) : Prop :=
  b.numDigits ≠ [] ∧ (∀ c ∈ b.numDigits, c.isDigit = true) ∧
  b.title ≠ [] ∧ (∀ c ∈ b.title, c ≠ '(' ∧ c ≠ '\n' ∧ c ≠ '*') ∧
  (∀ c, b.title.head? = some c → isPySpace c = false) ∧
  (∀ c, b.title.getLast? = some c → isPySpace c = false) ∧
  b.range ≠ [] ∧ (∀ c ∈ b.range, c ≠ ')') ∧
  b.desc ≠ [] ∧
  (∀ c, b.desc.head? = some c → isPySpace c = false) ∧
  (∀ c, b.desc.getLast? = some c → isPySpace c = false) ∧
  containsSeq chapterWord b.desc = false

instance (b : Block) : Decidable (WellFormedBlock b) := by
  unfold WellFormedBlock
  infer_instance

/-- Render one block in the claim's format. -/
def renderBlock (b : Block) : List Char :=
  chapterWord ++ ' ' :: b.numDigits ++ ':' :: ' ' :: b.title ++
    ' ' :: '(' :: b.range ++ ')' :: '\n' :: '\n' :: b.desc

/-- Render a master document: blocks joined by one blank line. -/
def renderBlocks : List Block → List Char
  | [] => []
  | [b] => renderBlock b
  | b :: b' :: bs => renderBlock b ++ '\n' :: '\n' :: renderBlocks (b' :: bs)

/-! ### List helper lemmas -/

theorem dropLeading_self_append (p r : List Char) :
    dropLeading p (p ++ r) = some r := by
  induction p with
  | nil => rfl
  | cons c p' ih => simp [dropLeading, ih]

theorem dropLeading_eq_some {p l r : List Char}
    (h : dropLeading p l = some r) : l = p ++ r := by
  induction p generalizing l with
  | nil => cases l <;> simpa [dropLeading] using h
  | cons c p' ih =>
    cases l with
    | nil => exact absurd h (by simp [dropLeading])
    | cons d l' =>
      unfold dropLeading at h
      by_cases hc : c = d
      · rw [if_pos hc] at h
        rw [List.cons_append, ← ih h, hc]
      · rw [if_neg hc] at h
        exact Option.noConfusion h

theorem takeWhile_all_append {p : Char → Bool} (u v : List Char)
    (h : ∀ c ∈ u, p c = true) :
    (u ++ v).takeWhile p = u ++ v.takeWhile p := by
  induction u with
  | nil => simp
  | cons c u' ih =>
    have hc := h c (by simp)
    simp [List.takeWhile_cons, hc, ih (fun d hd => h d (by simp [hd]))]

theorem dropWhile_all_append {p : Char → Bool} (u v : List Char)
    (h : ∀ c ∈ u, p c = true) :
    (u ++ v).dropWhile p = v.dropWhile p := by
  induction u with
  | nil => simp
  | cons c u' ih =>
    simp only [List.cons_append, List.dropWhile_cons, h c (by simp)]
    simp only [if_true]
    exact ih (fun d hd => h d (by simp [hd]))

/-- `takeWhile` of a satisfying run followed by a failing character. -/
theorem takeWhile_run {p : Char → Bool} (u : List Char) (c0 : Char)
    (v : List Char) (hu : ∀ c ∈ u, p c = true) (hc0 : p c0 = false) :
    (u ++ c0 :: v).takeWhile p = u := by
  rw [takeWhile_all_append u (c0 :: v) hu, List.takeWhile_cons, hc0]
  simp

/-- `dropWhile` of a satisfying run followed by a failing character. -/
theorem dropWhile_run {p : Char → Bool} (u : List Char) (c0 : Char)
    (v : List Char) (hu : ∀ c ∈ u, p c = true) (hc0 : p c0 = false) :
    (u ++ c0 :: v).dropWhile p = c0 :: v := by
  rw [dropWhile_all_append u (c0 :: v) hu, List.dropWhile_cons, hc0]
  simp

/-- When `u` contains a character failing `p`, `dropWhile p` stops inside
`u`: the result is `u.dropWhile p ++ v`, and `u.dropWhile p` is non-empty
with its head failing `p`. -/
theorem dropWhile_stops_inside {p : Char → Bool} (u v : List Char)
    (h : ∃ c ∈ u, p c = false) :
    (u ++ v).dropWhile p = u.dropWhile p ++ v ∧
      ∃ c0 u', u.dropWhile p = c0 :: u' ∧ p c0 = false ∧ c0 ∈ u := by
  induction u with
  | nil => simp at h
  | cons c u' ih =>
    by_cases hc : p c
    · have h' : ∃ d ∈ u', p d = false := by
        obtain ⟨d, hd, hdp⟩ := h
        rcases List.mem_cons.mp hd with rfl | hd'
        · rw [hc] at hdp; exact Bool.noConfusion hdp
        · exact ⟨d, hd', hdp⟩
      obtain ⟨h1, c0, u'', h2, h3, h4⟩ := ih h'
      refine ⟨?_, c0, u'', ?_, h3, by simp [h4]⟩
      · simp only [List.cons_append, List.dropWhile_cons, hc, if_true]
        exact h1
      · simp only [List.dropWhile_cons, hc, if_true]
        exact h2
    · have hc' : p c = false := by simpa using hc
      refine ⟨?_, c, u', ?_, hc', by simp⟩
      · simp [List.dropWhile_cons, hc']
      · simp [List.dropWhile_cons, hc']

theorem getLast?_mem' {l : List Char} {c : Char} (h : l.getLast? = some c) :
    c ∈ l := by
  cases l with
  | nil => exact absurd h (by simp)
  | cons d l' =>
    have := List.getLast?_eq_getLast (d :: l') (by simp)
    rw [this] at h
    injection h with h
    rw [← h]
    exact List.getLast_mem _

/-! ### `pyStrip` lemmas -/

theorem dropWhile_ws_reverse (l : List Char)
    (h2 : ∀ c, l.getLast? = some c → isPySpace c = false) :
    l.reverse.dropWhile isPySpace = l.reverse := by
  cases hr : l.reverse with
  | nil => rfl
  | cons d r' =>
    have hd : isPySpace d = false := by
      apply h2
      rw [← List.head?_reverse, hr]
      rfl
    rw [List.dropWhile_cons, hd]
    simp

theorem pyStrip_eq_self (l : List Char)
    (h1 : ∀ c, l.head? = some c → isPySpace c = false)
    (h2 : ∀ c, l.getLast? = some c → isPySpace c = false) :
    pyStrip l = l := by
  cases l with
  | nil => rfl
  | cons c l' =>
    unfold pyStrip
    rw [List.dropWhile_cons, h1 c rfl]
    simp only [Bool.false_eq_true, if_false]
    rw [dropWhile_ws_reverse (c :: l') h2, List.reverse_reverse]

theorem pyStrip_append_newlines (d : List Char) (hne : d ≠ [])
    (h1 : ∀ c, d.head? = some c → isPySpace c = false)
    (h2 : ∀ c, d.getLast? = some c → isPySpace c = false) :
    pyStrip (d ++ ['\n', '\n']) = d := by
  cases d with
  | nil => exact absurd rfl hne
  | cons c d' =>
    unfold pyStrip
    rw [List.cons_append, List.dropWhile_cons, h1 c rfl]
    simp only [Bool.false_eq_true, if_false]
    have hrev : (c :: (d' ++ ['\n', '\n'])).reverse =
        '\n' :: '\n' :: (c :: d').reverse := by simp
    rw [hrev, List.dropWhile_cons, show isPySpace '\n' = true from rfl]
    simp only [if_true]
    rw [List.dropWhile_cons, show isPySpace '\n' = true from rfl]
    simp only [if_true]
    rw [dropWhile_ws_reverse (c :: d') h2, List.reverse_reverse]

/-! ### `leadsWith` / `containsSeq` lemmas -/

theorem leadsWith_iff (p l : List Char) :
    leadsWith p l = true ↔ ∃ t, l = p ++ t := by
  induction p generalizing l with
  | nil => simp [leadsWith]
  | cons c p' ih =>
    cases l with
    | nil =>
      simp [leadsWith]
    | cons d l' =>
      simp only [leadsWith, Bool.and_eq_true, decide_eq_true_eq, ih]
      constructor
      · rintro ⟨rfl, t, rfl⟩
        exact ⟨t, rfl⟩
      · rintro ⟨t, ht⟩
        injection ht with ht1 ht2
        exact ⟨ht1.symm, t, ht2⟩

theorem containsSeq_cons {p : List Char} {c : Char} {l : List Char} :
    containsSeq p (c :: l) = (leadsWith p (c :: l) || containsSeq p l) := rfl

theorem containsSeq_of_leadsWith {p l : List Char} (hp : p ≠ [])
    (h : leadsWith p l = true) : containsSeq p l = true := by
  cases l with
  | nil =>
    obtain ⟨t, ht⟩ := (leadsWith_iff p []).mp h
    cases p with
    | nil => exact absurd rfl hp
    | cons c p' => exact absurd ht (by simp)
  | cons c l' => simp [containsSeq_cons, h]

theorem containsSeq_tail_false {p : List Char} {c : Char} {l : List Char}
    (h : containsSeq p (c :: l) = false) : containsSeq p l = false := by
  rw [containsSeq_cons] at h
  exact (Bool.or_eq_false_iff.mp h).2

theorem leadsWith_false_of_containsSeq_false {p l : List Char} (hp : p ≠ [])
    (h : containsSeq p l = false) : leadsWith p l = false := by
  by_contra hlw
  have : leadsWith p l = true := by
    cases hlw' : leadsWith p l
    · exact absurd hlw' hlw
    · rfl
  rw [containsSeq_of_leadsWith hp this] at h
  exact Bool.noConfusion h

/-- The crossing lemma: the word `Chapter` cannot begin at a position of
`u` followed by a newline region when `u` does not contain it. -/
theorem leads_chapterWord_cross_false (u z : List Char)
    (hcont : containsSeq chapterWord u = false) :
    leadsWith chapterWord (u ++ '\n' :: z) = false := by
  by_contra hlw
  have h : leadsWith chapterWord (u ++ '\n' :: z) = true := by
    cases hlw' : leadsWith chapterWord (u ++ '\n' :: z)
    · exact absurd hlw' hlw
    · rfl
  obtain ⟨t, ht⟩ := (leadsWith_iff _ _).mp h
  rcases List.append_eq_append_iff.mp ht with ⟨a, ha1, ha2⟩ | ⟨c', hc1, hc2⟩
  · -- chapterWord = u ++ a
    cases a with
    | nil =>
      have : u = chapterWord := by simpa using ha1.symm
      subst this
      have : leadsWith chapterWord chapterWord = true :=
        (leadsWith_iff _ _).mpr ⟨[], by simp⟩
      rw [containsSeq_of_leadsWith (by decide) this] at hcont
      exact Bool.noConfusion hcont
    | cons a0 a' =>
      have ha0 : a0 = '\n' := by
        have := ha2
        rw [List.cons_append] at this
        injection this with h1 _
        exact h1.symm
      have hmem : a0 ∈ chapterWord := by
        rw [ha1]
        simp
      rw [ha0] at hmem
      revert hmem
      decide
  · -- u = chapterWord ++ c'
    have : leadsWith chapterWord u = true := by
      rw [hc1]
      exact (leadsWith_iff _ _).mpr ⟨c', rfl⟩
    rw [containsSeq_of_leadsWith (by decide) this] at hcont
    exact Bool.noConfusion hcont

/-- Same for a suffix position with nothing after `u`. -/
theorem leads_chapterWord_end_false (u : List Char)
    (hcont : containsSeq chapterWord u = false) :
    leadsWith chapterWord u = false :=
  leadsWith_false_of_containsSeq_false (by decide) hcont

/-! ### Lookahead lemmas -/

theorem isSome_orElse (a b : Option α) :
    (a <|> b).isSome = (a.isSome || b.isSome) := by
  cases a <;> rfl

theorem lookaheadCore_isSome_leads {r : List Char}
    (h : (lookaheadCore r).isSome = true) :
    leadsWith chapterWord r = true := by
  unfold lookaheadCore at h
  cases hc : chapterNumCore r with
  | none => rw [hc] at h; exact Bool.noConfusion h
  | some p =>
    unfold chapterNumCore at hc
    cases hd : dropLeading chapterWord r with
    | none => rw [hd] at hc; exact Option.noConfusion hc
    | some r1 =>
      rw [dropLeading_eq_some hd]
      exact (leadsWith_iff _ _).mpr ⟨r1, rfl⟩

theorem starsThen_isSome_decomp {α} {f : List Char → Option α}
    {s : List Char} (h : (starsThen f s).isSome = true) :
    (f s).isSome = true ∨
    (∃ t, s = '*' :: t ∧ (f t).isSome = true) ∨
    (∃ t, s = '*' :: '*' :: t ∧ (f t).isSome = true) := by
  cases s with
  | nil => exact Or.inl h
  | cons c s1 =>
    cases s1 with
    | nil =>
      by_cases hc : c = '*'
      · subst hc
        have h' : ((f [] <|> f ['*']).isSome) = true := h
        rw [isSome_orElse] at h'
        rcases Bool.or_eq_true_iff.mp h' with h1 | h1
        · exact Or.inr (Or.inl ⟨[], rfl, h1⟩)
        · exact Or.inl h1
      · have h0 : ((if c = '*' then f [] <|> f [c] else f [c]).isSome) = true := h
        rw [if_neg hc] at h0
        exact Or.inl h0
    | cons c2 rest =>
      by_cases hc : c = '*'
      · by_cases hc2 : c2 = '*'
        · subst hc; subst hc2
          have h' : ((f rest <|> f ('*' :: rest) <|>
              f ('*' :: '*' :: rest)).isSome) = true := h
          rw [isSome_orElse, isSome_orElse] at h'
          rcases Bool.or_eq_true_iff.mp h' with h1 | h1
          · exact Or.inr (Or.inr ⟨rest, rfl, h1⟩)
          · rcases Bool.or_eq_true_iff.mp h1 with h2 | h2
            · exact Or.inr (Or.inl ⟨'*' :: rest, rfl, h2⟩)
            · exact Or.inl h2
        · subst hc
          have h0 : ((if c2 = '*' then
              f rest <|> f (c2 :: rest) <|> f ('*' :: c2 :: rest)
              else f (c2 :: rest) <|> f ('*' :: c2 :: rest)).isSome) = true := h
          rw [if_neg hc2] at h0
          rw [isSome_orElse] at h0
          rcases Bool.or_eq_true_iff.mp h0 with h1 | h1
          · exact Or.inr (Or.inl ⟨c2 :: rest, rfl, h1⟩)
          · exact Or.inl h1
      · have h0 : ((if c = '*' then
            (if c2 = '*' then f rest <|> f (c2 :: rest) <|> f (c :: c2 :: rest)
              else f (c2 :: rest) <|> f (c :: c2 :: rest))
            else f (c :: c2 :: rest)).isSome) = true := h
        rw [if_neg hc] at h0
        exact Or.inl h0

/-- The negative lookahead fails at every position strictly inside a
description region: `u` is the suffix of the description starting at the
current position (possibly empty), and what follows is either nothing or a
newline. -/
theorem lookahead_false_of_no_chapter (u z : List Char)
    (hu : containsSeq chapterWord u = false)
    (hz : z = [] ∨ ∃ z', z = '\n' :: z') :
    lookaheadChapter (u ++ z) = false := by
  have leads_false : ∀ v : List Char, containsSeq chapterWord v = false →
      leadsWith chapterWord (v ++ z) = false := by
    intro v hv
    rcases hz with rfl | ⟨z', rfl⟩
    · rw [List.append_nil]
      exact leads_chapterWord_end_false v hv
    · exact leads_chapterWord_cross_false v z' hv
  by_contra h
  have h' : lookaheadChapter (u ++ z) = true := by
    cases hb : lookaheadChapter (u ++ z)
    · exact absurd hb h
    · rfl
  unfold lookaheadChapter at h'
  rcases starsThen_isSome_decomp h' with h1 | ⟨t, ht, h1⟩ | ⟨t, ht, h1⟩
  · have := lookaheadCore_isSome_leads h1
    rw [leads_false u hu] at this
    exact Bool.noConfusion this
  · cases u with
    | nil =>
      rcases hz with rfl | ⟨z', rfl⟩
      · exact absurd ht (by simp)
      · rw [List.nil_append] at ht
        injection ht with hchar _
        exact absurd hchar (by decide)
    | cons c u' =>
      rw [List.cons_append] at ht
      injection ht with hchar htail
      have := lookaheadCore_isSome_leads h1
      rw [← htail, leads_false u' (containsSeq_tail_false hu)] at this
      exact Bool.noConfusion this
  · cases u with
    | nil =>
      rcases hz with rfl | ⟨z', rfl⟩
      · exact absurd ht (by simp)
      · rw [List.nil_append] at ht
        injection ht with hchar _
        exact absurd hchar (by decide)
    | cons c u' =>
      rw [List.cons_append] at ht
      injection ht with hchar htail
      cases u' with
      | nil =>
        rcases hz with rfl | ⟨z', rfl⟩
        · exact absurd htail (by simp)
        · rw [List.nil_append] at htail
          injection htail with hchar2 _
          exact absurd hchar2 (by decide)
      | cons c2 u'' =>
        rw [List.cons_append] at htail
        injection htail with hchar2 htail2
        have := lookaheadCore_isSome_leads h1
        rw [← htail2,
          leads_false u'' (containsSeq_tail_false (containsSeq_tail_false hu))]
          at this
        exact Bool.noConfusion this

/-! ### `takeDesc` lemmas -/

theorem scanFuel_nil (f : ℕ) : scanChapters f [] = [] := by
  cases f <;> rfl

theorem takeDesc_to_end (d : List Char)
    (hd : containsSeq chapterWord d = false) :
    takeDesc d = (d, []) := by
  induction d with
  | nil => rfl
  | cons c d' ih =>
    have hla : lookaheadChapter (c :: d') = false := by
      have := lookahead_false_of_no_chapter (c :: d') [] hd (Or.inl rfl)
      rwa [List.append_nil] at this
    unfold takeDesc
    rw [hla]
    simp [ih (containsSeq_tail_false hd)]

theorem takeDesc_stops (d r : List Char)
    (hd : containsSeq chapterWord d = false)
    (hr : lookaheadChapter r = true) :
    takeDesc (d ++ '\n' :: '\n' :: r) = (d ++ ['\n', '\n'], r) := by
  induction d with
  | nil =>
    have h1 : lookaheadChapter ('\n' :: '\n' :: r) = false := by
      have := lookahead_false_of_no_chapter [] ('\n' :: '\n' :: r) (by decide)
        (Or.inr ⟨_, rfl⟩)
      rwa [List.nil_append] at this
    have h2 : lookaheadChapter ('\n' :: r) = false := by
      have := lookahead_false_of_no_chapter [] ('\n' :: r) (by decide)
        (Or.inr ⟨_, rfl⟩)
      rwa [List.nil_append] at this
    cases r with
    | nil => exact absurd hr (by decide)
    | cons c0 r0 =>
      rw [List.nil_append]
      unfold takeDesc
      rw [h1]
      simp only [Bool.false_eq_true, if_false]
      unfold takeDesc
      rw [h2]
      simp only [Bool.false_eq_true, if_false]
      unfold takeDesc
      rw [hr]
      simp
  | cons c d' ih =>
    have hla : lookaheadChapter ((c :: d') ++ '\n' :: '\n' :: r) = false :=
      lookahead_false_of_no_chapter (c :: d') ('\n' :: '\n' :: r) hd
        (Or.inr ⟨_, rfl⟩)
    rw [List.cons_append]
    unfold takeDesc
    rw [show (c :: (d' ++ '\n' :: '\n' :: r)) = ((c :: d') ++ '\n' :: '\n' :: r)
      from rfl, hla]
    simp only [Bool.false_eq_true, if_false]
    simp [ih (containsSeq_tail_false hd)]

/-! ### Heading-matcher lemmas -/

theorem digit_not_ws {c : Char} (h : c.isDigit = true) : isPySpace c = false := by
  by_contra hws
  have hws' : isPySpace c = true := by
    cases hb : isPySpace c
    · exact absurd hb hws
    · rfl
  unfold isPySpace at hws'
  simp only [Bool.or_eq_true, decide_eq_true_eq] at hws'
  rcases hws' with ((((h1 | h1) | h1) | h1) | h1) | h1 <;>
    (subst h1; exact absurd h (by decide))

theorem dropWhile_eq_self_of_head {p : Char → Bool} (l : List Char)
    (h : ∀ c, l.head? = some c → p c = false) :
    l.dropWhile p = l := by
  cases l with
  | nil => rfl
  | cons c l' =>
    rw [List.dropWhile_cons, h c rfl]
    simp

theorem chapterNumCore_concrete (d0 : Char) (nd : List Char) (c1 : Char)
    (X : List Char) (hd0 : d0.isDigit = true)
    (hnd : ∀ c ∈ nd, c.isDigit = true) (hc1 : c1.isDigit = false) :
    chapterNumCore (chapterWord ++ ' ' :: ((d0 :: nd) ++ c1 :: X)) =
      some (d0 :: nd, c1 :: X) := by
  have hdall : ∀ c ∈ d0 :: nd, Char.isDigit c = true := by
    intro c hc
    rcases List.mem_cons.mp hc with rfl | hc'
    · exact hd0
    · exact hnd c hc'
  have e_take : ((d0 :: nd) ++ c1 :: X).takeWhile Char.isDigit = d0 :: nd :=
    takeWhile_run _ _ _ hdall hc1
  have e_drop : ((d0 :: nd) ++ c1 :: X).dropWhile Char.isDigit = c1 :: X :=
    dropWhile_run _ _ _ hdall hc1
  have e_dropws : (' ' :: ((d0 :: nd) ++ c1 :: X)).dropWhile isPySpace =
      (d0 :: nd) ++ c1 :: X := by
    rw [List.dropWhile_cons, show isPySpace ' ' = true from rfl]
    simp only [if_true, List.cons_append, List.dropWhile_cons,
      digit_not_ws hd0]
    simp
  unfold chapterNumCore
  rw [dropLeading_self_append]
  have e_dropws' : List.dropWhile isPySpace (' ' :: (d0 :: (nd ++ c1 :: X))) =
      d0 :: (nd ++ c1 :: X) := by simpa using e_dropws
  have e_take' : List.takeWhile Char.isDigit (d0 :: (nd ++ c1 :: X)) =
      d0 :: nd := by simpa using e_take
  have e_drop' : List.dropWhile Char.isDigit (d0 :: (nd ++ c1 :: X)) =
      c1 :: X := by simpa using e_drop
  simp only [List.cons_append]
  rw [e_dropws']
  simp only [hd0, if_true, e_take', e_drop']
  rfl

theorem isEmpty_false_of_ne_nil {α : Type} {l : List α} (h : l ≠ []) :
    l.isEmpty = false := by
  cases l with
  | nil => exact absurd rfl h
  | cons c l' => rfl

theorem newlineAlt_none {l : List Char} (hne : l ≠ [])
    (hhd : ∀ c, l.head? = some c → c ≠ '\n') : newlineAlt l = none := by
  cases l with
  | nil => exact absurd rfl hne
  | cons c l' =>
    show (if c = '\n' then
        (match l' with
         | c2 :: rest2 => if c2 = '\n' then some rest2 else some l'
         | [] => some l')
      else none) = none
    rw [if_neg (hhd c rfl)]

theorem starsThen_not_star {α} (f : List Char → Option α) (c : Char)
    (l : List Char) (hc : c ≠ '*') : starsThen f (c :: l) = f (c :: l) := by
  cases l with
  | nil =>
    show (if c = '*' then f [] <|> f [c] else f [c]) = f [c]
    rw [if_neg hc]
  | cons c2 l' =>
    show (if c = '*' then
        (if c2 = '*' then f l' <|> f (c2 :: l') <|> f (c :: c2 :: l')
          else f (c2 :: l') <|> f (c :: c2 :: l'))
        else f (c :: c2 :: l')) = f (c :: c2 :: l')
    rw [if_neg hc]

theorem parenGroup_concrete (range Y : List Char) (hne : range ≠ [])
    (hc : ∀ c ∈ range, c ≠ ')') :
    parenGroup (' ' :: '(' :: (range ++ ')' :: Y)) = some Y := by
  have hall : ∀ c ∈ range, (fun d => decide (d ≠ ')')) c = true := by
    intro c hcm
    simp [hc c hcm]
  have e_take : (range ++ ')' :: Y).takeWhile (fun d => decide (d ≠ ')')) =
      range := takeWhile_run _ _ _ hall (by simp)
  have e_drop : (range ++ ')' :: Y).dropWhile (fun d => decide (d ≠ ')')) =
      ')' :: Y := dropWhile_run _ _ _ hall (by simp)
  have e1 : List.dropWhile isPySpace (' ' :: '(' :: (range ++ ')' :: Y)) =
      '(' :: (range ++ ')' :: Y) := by
    rw [List.dropWhile_cons, show isPySpace ' ' = true from rfl]
    simp only [if_true]
    rw [List.dropWhile_cons, show isPySpace '(' = false from rfl]
    simp
  unfold parenGroup
  rw [e1]
  simp only [e_take, e_drop, isEmpty_false_of_ne_nil hne]
  rfl

theorem afterTitle_success (range rest : List Char) (hne : range ≠ [])
    (hc : ∀ c ∈ range, c ≠ ')') :
    afterTitle (' ' :: '(' :: (range ++ ')' :: '\n' :: '\n' :: rest)) =
      some rest := by
  unfold afterTitle
  rw [parenGroup_concrete range ('\n' :: '\n' :: rest) hne hc]
  have e2 : starsThen newlineAlt ('\n' :: '\n' :: rest) = some rest := by
    rw [starsThen_not_star newlineAlt '\n' ('\n' :: rest) (by decide)]
    rfl
  simp [e2]

theorem afterTitle_mid_fail (u T : List Char) (hu_ne : u ≠ [])
    (hu_par : ∀ c ∈ u, c ≠ '(') (hu_nl : ∀ c ∈ u, c ≠ '\n')
    (hu_star : ∀ c ∈ u, c ≠ '*')
    (hu_nonws : ∃ c ∈ u, isPySpace c = false) :
    afterTitle (u ++ T) = none := by
  have hpar : parenGroup (u ++ T) = none := by
    obtain ⟨e1, c0, u', e2, e3, e4⟩ := dropWhile_stops_inside u T hu_nonws
    unfold parenGroup
    rw [e1, e2, List.cons_append]
    simp [hu_par c0 e4]
  have hsn : starsThen newlineAlt (u ++ T) = none := by
    cases u with
    | nil => exact absurd rfl hu_ne
    | cons c u' =>
      rw [List.cons_append]
      rw [starsThen_not_star newlineAlt c (u' ++ T) (hu_star c (by simp))]
      refine newlineAlt_none (by simp) (fun d hd => ?_)
      injection hd with hd
      rw [← hd]
      exact hu_nl c (by simp)
  unfold afterTitle
  rw [hpar, hsn]
  rfl

theorem titleLoop_render (range rest : List Char) (hrange_ne : range ≠ [])
    (hrange : ∀ c ∈ range, c ≠ ')') :
    ∀ title : List Char, (∀ c ∈ title, c ≠ '(' ∧ c ≠ '\n' ∧ c ≠ '*') →
    (∀ c, title.getLast? = some c → isPySpace c = false) →
    ∀ acc : List Char,
    titleLoop acc (title ++ ' ' :: '(' :: (range ++ ')' :: '\n' :: '\n' :: rest)) =
      some (acc.reverse ++ title, rest) := by
  intro title
  induction title with
  | nil =>
    intro _ _ acc
    rw [List.nil_append,
      titleLoop_cons_some acc ' ' _ rest
        (afterTitle_success range rest hrange_ne hrange)]
    simp
  | cons c title' ih =>
    intro hchars hlast acc
    have hfail : afterTitle ((c :: title') ++
        (' ' :: '(' :: (range ++ ')' :: '\n' :: '\n' :: rest))) = none := by
      refine afterTitle_mid_fail _ _ (by simp) (fun d hd => (hchars d hd).1)
        (fun d hd => (hchars d hd).2.1) (fun d hd => (hchars d hd).2.2) ?_
      cases hgl : (c :: title').getLast? with
      | none => simp at hgl
      | some d => exact ⟨d, getLast?_mem' hgl, hlast d hgl⟩
    have hlast' : ∀ d, title'.getLast? = some d → isPySpace d = false := by
      intro d hd
      apply hlast
      cases title' with
      | nil => simp at hd
      | cons e t'' => rw [List.getLast?_cons_cons]; exact hd
    have hchars' : ∀ d ∈ title', d ≠ '(' ∧ d ≠ '\n' ∧ d ≠ '*' :=
      fun d hd => hchars d (by simp [hd])
    rw [List.cons_append]
    rw [titleLoop_cons_none acc c _ (by
      rw [show (c :: (title' ++ ' ' :: '(' :: (range ++ ')' :: '\n' :: '\n' :: rest)))
        = ((c :: title') ++ (' ' :: '(' :: (range ++ ')' :: '\n' :: '\n' :: rest)))
        from rfl]
      exact hfail)]
    rw [if_neg (hchars c (by simp)).1]
    rw [ih hchars' hlast' (c :: acc)]
    simp

theorem sepColonDash_colon (T : List Char) :
    sepColonDash (':' :: T) = some T := by
  unfold sepColonDash
  rw [dropWhile_eq_self_of_head _ (fun c hc => by
    injection hc with hc; rw [← hc]; rfl)]
  rfl

theorem headingAfterStars_render (d0 : Char) (nd title range rest : List Char)
    (hd0 : d0.isDigit = true) (hnd : ∀ c ∈ nd, c.isDigit = true)
    (htitle_ne : title ≠ [])
    (htc : ∀ c ∈ title, c ≠ '(' ∧ c ≠ '\n' ∧ c ≠ '*')
    (hth : ∀ c, title.head? = some c → isPySpace c = false)
    (htl : ∀ c, title.getLast? = some c → isPySpace c = false)
    (hrange_ne : range ≠ []) (hrange : ∀ c ∈ range, c ≠ ')') :
    headingAfterStars (chapterWord ++ ' ' :: ((d0 :: nd) ++ ':' :: ' ' ::
        (title ++ ' ' :: '(' :: (range ++ ')' :: '\n' :: '\n' :: rest)))) =
      some (d0 :: nd, title, rest) := by
  have hnum := chapterNumCore_concrete d0 nd ':'
    (' ' :: (title ++ ' ' :: '(' :: (range ++ ')' :: '\n' :: '\n' :: rest)))
    hd0 hnd (by decide)
  have hsep := sepColonDash_colon
    (' ' :: (title ++ ' ' :: '(' :: (range ++ ')' :: '\n' :: '\n' :: rest)))
  have htw : (' ' :: (title ++ ' ' :: '(' :: (range ++ ')' :: '\n' :: '\n' ::
      rest))).takeWhile isPySpace = [' '] := by
    rw [List.takeWhile_cons, show isPySpace ' ' = true from rfl]
    simp only [if_true]
    cases htitle : title with
    | nil => exact absurd htitle htitle_ne
    | cons c t' =>
      have hcw : isPySpace c = false := by
        apply hth
        rw [htitle]
        rfl
      rw [List.cons_append, List.takeWhile_cons, hcw]
      simp
  have hTL := titleLoop_render range rest hrange_ne hrange title htc htl []
  unfold headingAfterStars
  rw [hnum]
  simp only [hsep, htw, List.length_cons, List.length_nil]
  have hg : greedyWsDescend (titleLoop []) (' ' :: (title ++ ' ' :: '(' ::
      (range ++ ')' :: '\n' :: '\n' :: rest))) (0 + 1) = some (title, rest) := by
    unfold greedyWsDescend
    rw [show (' ' :: (title ++ ' ' :: '(' :: (range ++ ')' :: '\n' :: '\n' ::
      rest))).drop (0 + 1) = title ++ ' ' :: '(' :: (range ++ ')' :: '\n' ::
      '\n' :: rest) from rfl]
    rw [hTL]
    simp
  rw [hg]
  rfl

theorem lookahead_render_concrete (d0 : Char) (nd T : List Char)
    (hd0 : d0.isDigit = true) (hnd : ∀ c ∈ nd, c.isDigit = true) :
    lookaheadChapter (chapterWord ++ ' ' :: ((d0 :: nd) ++ ':' :: T)) = true := by
  have e : chapterWord ++ ' ' :: ((d0 :: nd) ++ ':' :: T) =
      'C' :: (['h', 'a', 'p', 't', 'e', 'r'] ++
        ' ' :: ((d0 :: nd) ++ ':' :: T)) := rfl
  unfold lookaheadChapter
  rw [e, starsThen_not_star lookaheadCore 'C' _ (by decide), ← e]
  unfold lookaheadCore
  rw [chapterNumCore_concrete d0 nd ':' T hd0 hnd (by decide)]
  have hsep : lookaheadSep (':' :: T) = true := by
    unfold lookaheadSep
    rw [sepColonDash_colon T]
    rfl
  show (if lookaheadSep (':' :: T) = true then some () else none).isSome = true
  rw [hsep]
  rfl

/-! ### Scan-level lemmas -/

theorem matchChapterHeading_render (b : Block) (hb : WellFormedBlock b)
    (t : List Char) :
    matchChapterHeading (renderBlock b ++ t) =
      some (b.numDigits, b.title, b.desc ++ t) := by
  obtain ⟨hnd_ne, hnd_dig, ht_ne, ht_chars, ht_head, ht_last,
    hr_ne, hr_chars, hd_ne, hd_head, hd_last, hd_noc⟩ := hb
  cases hnum : b.numDigits with
  | nil => exact absurd hnum hnd_ne
  | cons d0 nd =>
    rw [hnum] at hnd_dig
    have e : renderBlock b ++ t =
        chapterWord ++ ' ' :: ((d0 :: nd) ++ ':' :: ' ' ::
          (b.title ++ ' ' :: '(' :: (b.range ++ ')' :: '\n' :: '\n' ::
            (b.desc ++ t)))) := by
      unfold renderBlock
      rw [hnum]
      simp
    unfold matchChapterHeading
    rw [e]
    rw [show chapterWord ++ ' ' :: ((d0 :: nd) ++ ':' :: ' ' ::
        (b.title ++ ' ' :: '(' :: (b.range ++ ')' :: '\n' :: '\n' ::
          (b.desc ++ t)))) =
      'C' :: (['h', 'a', 'p', 't', 'e', 'r'] ++ ' ' :: ((d0 :: nd) ++ ':' ::
        ' ' :: (b.title ++ ' ' :: '(' :: (b.range ++ ')' :: '\n' :: '\n' ::
          (b.desc ++ t))))) from rfl]
    rw [starsThen_not_star headingAfterStars 'C' _ (by decide)]
    rw [show 'C' :: (['h', 'a', 'p', 't', 'e', 'r'] ++ ' ' :: ((d0 :: nd) ++
        ':' :: ' ' :: (b.title ++ ' ' :: '(' :: (b.range ++ ')' :: '\n' ::
          '\n' :: (b.desc ++ t))))) =
      chapterWord ++ ' ' :: ((d0 :: nd) ++ ':' :: ' ' :: (b.title ++ ' ' ::
        '(' :: (b.range ++ ')' :: '\n' :: '\n' :: (b.desc ++ t)))) from rfl]
    rw [headingAfterStars_render d0 nd b.title b.range (b.desc ++ t)
      (hnd_dig d0 (by simp)) (fun c hc => hnd_dig c (by simp [hc]))
      ht_ne ht_chars ht_head ht_last hr_ne hr_chars]

theorem lookahead_renderBlock (b : Block) (hb : WellFormedBlock b)
    (t : List Char) :
    lookaheadChapter (renderBlock b ++ t) = true := by
  obtain ⟨hnd_ne, hnd_dig, ht_ne, ht_chars, ht_head, ht_last,
    hr_ne, hr_chars, hd_ne, hd_head, hd_last, hd_noc⟩ := hb
  cases hnum : b.numDigits with
  | nil => exact absurd hnum hnd_ne
  | cons d0 nd =>
    rw [hnum] at hnd_dig
    have e : renderBlock b ++ t =
        chapterWord ++ ' ' :: ((d0 :: nd) ++ ':' :: (' ' ::
          (b.title ++ ' ' :: '(' :: (b.range ++ ')' :: '\n' :: '\n' ::
            (b.desc ++ t))))) := by
      unfold renderBlock
      rw [hnum]
      simp
    rw [e]
    exact lookahead_render_concrete d0 nd _ (hnd_dig d0 (by simp))
      (fun c hc => hnd_dig c (by simp [hc]))

theorem renderBlock_length_pos (b : Block) : 0 < (renderBlock b).length := by
  unfold renderBlock chapterWord
  simp

theorem renderBlocks_ne_nil (b : Block) (bs : List Block) :
    renderBlocks (b :: bs) ≠ [] := by
  cases bs with
  | nil =>
    show renderBlock b ≠ []
    intro h
    have := renderBlock_length_pos b
    rw [h] at this
    exact absurd this (by simp)
  | cons b' bs' =>
    show renderBlock b ++ '\n' :: '\n' :: renderBlocks (b' :: bs') ≠ []
    simp

theorem lookahead_renderBlocks (bs : List Block) (hne : bs ≠ [])
    (hwf : ∀ b ∈ bs, WellFormedBlock b) :
    lookaheadChapter (renderBlocks bs) = true := by
  cases bs with
  | nil => exact absurd rfl hne
  | cons b bs' =>
    cases bs' with
    | nil =>
      have := lookahead_renderBlock b (hwf b (by simp)) []
      rw [List.append_nil] at this
      exact this
    | cons b' bs'' =>
      exact lookahead_renderBlock b (hwf b (by simp)) _

/-- One step of the `finditer` scan at a matching position. -/
theorem scanChapters_step (fuel : ℕ) (l : List Char) (hne : l ≠ [])
    (ds title rest : List Char)
    (h : matchChapterHeading l = some (ds, title, rest)) :
    scanChapters (fuel + 1) l =
      (digitsToNat ds, title, (takeDesc rest).1) ::
        scanChapters fuel (takeDesc rest).2 := by
  cases l with
  | nil => exact absurd rfl hne
  | cons c cs =>
    conv_lhs => unfold scanChapters
    rw [h]

/-- The expected raw scanner output on a rendered master document. -/
def rawOf : List Block → List (ℕ × List Char × List Char)
  | [] => []
  | [b] => [(b.number, b.title, b.desc)]
  | b :: b' :: bs => (b.number, b.title, b.desc ++ ['\n', '\n']) ::
      rawOf (b' :: bs)

theorem scanChapters_render :
    ∀ bs : List Block, (∀ b ∈ bs, WellFormedBlock b) →
    ∀ fuel, (renderBlocks bs).length < fuel →
      scanChapters fuel (renderBlocks bs) = rawOf bs := by
  intro bs
  induction bs with
  | nil =>
    intro _ fuel _
    exact scanFuel_nil fuel
  | cons b bs' ih =>
    intro hwf fuel hfuel
    cases fuel with
    | zero => exact absurd hfuel (by simp)
    | succ f =>
      obtain ⟨hnd_ne, hnd_dig, ht_ne, ht_chars, ht_head, ht_last,
        hr_ne, hr_chars, hd_ne, hd_head, hd_last, hd_noc⟩ := hwf b (by simp)
      cases bs' with
      | nil =>
        have hm := matchChapterHeading_render b (hwf b (by simp)) []
        rw [List.append_nil, List.append_nil] at hm
        have hm' : matchChapterHeading (renderBlocks [b]) =
            some (b.numDigits, b.title, b.desc) := hm
        rw [scanChapters_step f (renderBlocks [b]) (renderBlocks_ne_nil b [])
          _ _ _ hm']
        rw [takeDesc_to_end b.desc hd_noc]
        rw [scanFuel_nil f]
        rfl
      | cons b' bs'' =>
        have hwf' : ∀ x ∈ b' :: bs'', WellFormedBlock x :=
          fun x hx => hwf x (by simp [hx])
        have hm := matchChapterHeading_render b (hwf b (by simp))
          ('\n' :: '\n' :: renderBlocks (b' :: bs''))
        have hm' : matchChapterHeading (renderBlocks (b :: b' :: bs'')) =
            some (b.numDigits, b.title,
              b.desc ++ '\n' :: '\n' :: renderBlocks (b' :: bs'')) := hm
        rw [scanChapters_step f (renderBlocks (b :: b' :: bs''))
          (renderBlocks_ne_nil b (b' :: bs'')) _ _ _ hm']
        rw [takeDesc_stops b.desc (renderBlocks (b' :: bs'')) hd_noc
          (lookahead_renderBlocks (b' :: bs'') (by simp) hwf')]
        have hlen : (renderBlocks (b' :: bs'')).length < f := by
          have e : renderBlocks (b :: b' :: bs'') =
              renderBlock b ++ '\n' :: '\n' :: renderBlocks (b' :: bs'') := rfl
          rw [e] at hfuel
          have hpos := renderBlock_length_pos b
          simp only [List.length_append, List.length_cons] at hfuel
          omega
        rw [ih hwf' f hlen]
        rfl

/-! ### Primary-parse round trip -/

theorem rawOf_map_strip :
    ∀ bs : List Block, (∀ b ∈ bs, WellFormedBlock b) →
    (rawOf bs).map (fun t => (⟨t.1, pyStrip t.2.1, pyStrip t.2.2⟩ : Chapter)) =
      bs.map fun b => (⟨b.number, b.title, b.desc⟩ : Chapter) := by
  intro bs
  induction bs with
  | nil => intro _; rfl
  | cons b bs' ih =>
    intro hwf
    obtain ⟨hnd_ne, hnd_dig, ht_ne, ht_chars, ht_head, ht_last,
      hr_ne, hr_chars, hd_ne, hd_head, hd_last, hd_noc⟩ := hwf b (by simp)
    have hstrip_title : pyStrip b.title = b.title :=
      pyStrip_eq_self b.title ht_head ht_last
    cases bs' with
    | nil =>
      show [(⟨b.number, pyStrip b.title, pyStrip b.desc⟩ : Chapter)] = _
      rw [hstrip_title, pyStrip_eq_self b.desc hd_head hd_last]
      rfl
    | cons b' bs'' =>
      have ih' := ih (fun x hx => hwf x (by simp [hx]))
      show (⟨b.number, pyStrip b.title,
          pyStrip (b.desc ++ ['\n', '\n'])⟩ : Chapter) ::
          (rawOf (b' :: bs'')).map
            (fun t => (⟨t.1, pyStrip t.2.1, pyStrip t.2.2⟩ : Chapter)) =
        (⟨b.number, b.title, b.desc⟩ : Chapter) ::
          (b' :: bs'').map (fun b => (⟨b.number, b.title, b.desc⟩ : Chapter))
      rw [hstrip_title, pyStrip_append_newlines b.desc hd_ne hd_head hd_last,
        ih']

theorem parsePrimary_render (bs : List Block)
    (hwf : ∀ b ∈ bs, WellFormedBlock b) :
    parsePrimary (renderBlocks bs) =
      bs.map fun b => (⟨b.number, b.title, b.desc⟩ : Chapter) := by
  unfold parsePrimary
  rw [scanChapters_render bs hwf _ (Nat.lt_succ_self _)]
  exact rawOf_map_strip bs hwf

theorem sortChapters_sorted_id :
    ∀ l : List Chapter, l.Chain' (fun a b => a.number ≤ b.number) →
    sortChaptersByNumber l = l := by
  intro l
  induction l with
  | nil => intro _; rfl
  | cons c l' ih =>
    intro h
    unfold sortChaptersByNumber
    rw [ih h.tail]
    cases l' with
    | nil => rfl
    | cons d ds =>
      have hcd : c.number ≤ d.number := (List.chain'_cons.mp h).1
      unfold insertChapterByNumber
      rw [if_pos hcd]

/-- C8: for every master-document string consisting of `N` well-formed
blocks `"Chapter k: Title (range)"`, a blank line, and a non-empty
description (numbers strictly ascending), `_parse_master_document` returns
exactly `N` chapter records whose numbers and titles match the
corresponding blocks, whose descriptions are non-empty, sorted in
ascending order of chapter number. -/
theorem c8_parse_master_document (bs : List Block)
    (hwf : ∀ b ∈ bs, WellFormedBlock b)
    (hasc : List.Chain' (fun a b : Block => a.number < b.number) bs)
    (hne : bs ≠ []) :
    parseMasterDocument ⟨renderBlocks bs⟩ =
      bs.map (fun b => (⟨b.number, b.title, b.desc⟩ : Chapter)) ∧
    (parseMasterDocument ⟨renderBlocks bs⟩).length = bs.length ∧
    (∀ ch ∈ parseMasterDocument ⟨renderBlocks bs⟩, ch.description ≠ []) ∧
    List.Chain' (fun a b : Chapter => a.number < b.number)
      (parseMasterDocument ⟨renderBlocks bs⟩) := by
  have htl : (String.mk (renderBlocks bs)).toList = renderBlocks bs := rfl
  have hsorted :
      sortChaptersByNumber (parsePrimary (String.mk (renderBlocks bs)).toList) =
        bs.map (fun b => (⟨b.number, b.title, b.desc⟩ : Chapter)) := by
    rw [htl, parsePrimary_render bs hwf]
    apply sortChapters_sorted_id
    rw [List.chain'_map]
    exact hasc.imp fun a b h => le_of_lt h
  have hne' : (bs.map (fun b => (⟨b.number, b.title, b.desc⟩ : Chapter))) ≠
      [] := by
    simpa using hne
  have hmain : parseMasterDocument ⟨renderBlocks bs⟩ =
      bs.map (fun b => (⟨b.number, b.title, b.desc⟩ : Chapter)) := by
    unfold parseMasterDocument
    rw [hsorted, isEmpty_false_of_ne_nil hne']
    simp
  refine ⟨hmain, ?_, ?_, ?_⟩
  · rw [hmain, List.length_map]
  · intro ch hch
    rw [hmain] at hch
    obtain ⟨b, hb, rfl⟩ := List.mem_map.mp hch
    exact (hwf b hb).2.2.2.2.2.2.2.2.1
  · rw [hmain, List.chain'_map]
    exact hasc

/-- Two concrete well-formed blocks used as the C8 witness. -/
def witnessBlocks : List Block :=
  [⟨['1'], "Introduction".toList, "0-5000 characters".toList,
    "Opening themes and context of the talk.".toList⟩,
   ⟨['2'], "Historical Background".toList, "5000-9000 characters".toList,
    "Earlier events and their influence.".toList⟩]

/-- Witness for C8: the two-block master document parses back to exactly
its two chapters. -/
theorem c8_parse_master_document_witness :
    (∀ b ∈ witnessBlocks, WellFormedBlock b) ∧
    List.Chain' (fun a b : Block => a.number < b.number) witnessBlocks ∧
    witnessBlocks ≠ [] ∧
    parseMasterDocument ⟨renderBlocks witnessBlocks⟩ =
      witnessBlocks.map (fun b => (⟨b.number, b.title, b.desc⟩ : Chapter)) := by
  have hchain : List.Chain' (fun a b : Block => a.number < b.number)
      witnessBlocks := by
    unfold witnessBlocks
    exact List.chain'_cons.mpr ⟨by decide, List.chain'_singleton _⟩
  refine ⟨by decide, hchain, by decide, ?_⟩
  exact (c8_parse_master_document witnessBlocks (by decide) hchain
    (by decide)).1

/-!
## Segmenter (`segmenter.py`)

Embedding of `TranscriptSegmenter` from
`src/src/transcript_pipeline/processor/segmenter.py`.  Configuration keys
with their defaults (lines 38–48) are gathered in `SegConfig`.  Regexes are
hand-compiled with the backtracking order documented at each definition.
-/

/-- Python `round()` on a rational: round half to even (what `round` does
on the exact value; float division is modelled as exact `ℚ` division). -/
def pyRound (q : ℚ) : ℤ :=
  if q - ⌊q⌋ < 1/2 then ⌊q⌋
  else if (1 : ℚ)/2 < q - ⌊q⌋ then ⌊q⌋ + 1
  else if ⌊q⌋ % 2 = 0 then ⌊q⌋ else ⌊q⌋ + 1

/-- Segmenter configuration (`__init__`, lines 38–48), with the defaults
used when a key is absent from the config dict. -/
structure SegConfig where
  target_segment_size : ℕ := 20000
  min_segment_size : ℕ := 17000
  max_segment_size : ℕ := 23000
  speaker_change_weight : ℕ := 5
  paragraph_break_weight : ℕ := 3
  topic_change_weight : ℕ := 4

/-- Index of the last newline inside a list, if any. -/
def lastNlIdx : List Char → Option ℕ
  | [] => none
  | c :: cs =>
    match lastNlIdx cs with
    | some i => some (i + 1)
    | none => if c = '\n' then some 0 else none

/-- Maximal run of `\s` characters at the head of the list. -/
def wsRun : List Char → List Char
  | [] => []
  | c :: cs => if isPySpace c then c :: wsRun cs else []

/-- Match of the paragraph-separator regex `\n\s*\n` (line 95) anchored at
the head of the list, returning the match length.  Backtracking order: the
greedy `\s*` first tries the whole whitespace run following the initial
newline and shrinks until the next character is `\n`; since every candidate
next character lies inside that whitespace run, the match extends exactly
to the LAST newline of the maximal whitespace run after the initial one
(and fails if that run contains no newline). -/
def matchParaSep : List Char → Option ℕ
  | '\n' :: cs =>
    match lastNlIdx (wsRun cs) with
    | some l => some (l + 2)
    | none => none
  | _ => none

/-- The scan of `re.split(r'\n\s*\n', text)` (line 95): cut at each
leftmost non-overlapping match, resuming after the match.  Fuel
`length + 1` suffices since every step consumes at least one character. -/
def splitScan : ℕ → List Char → List Char → List (List Char)
  | 0, acc, _ => [acc.reverse]
  | _ + 1, acc, [] => [acc.reverse]
  | fuel + 1, acc, c :: cs =>
    match matchParaSep (c :: cs) with
    | some m => acc.reverse :: splitScan fuel [] (List.drop m (c :: cs))
    | none => splitScan fuel (c :: acc) cs

/-- `_split_into_paragraphs` (lines 84–100): split on `\n\s*\n`, strip each
piece, keep the non-empty ones. -/
def splitIntoParagraphs (text : List Char) : List (List Char) :=
  ((splitScan (text.length + 1) [] text).map pyStrip).filter
    fun p => !p.isEmpty

/-- Anchored match of the speaker pattern `^[A-Z][a-z]*\s*:` (line 158),
returning `group(0)`.  Maximal munch is exact here: the classes `[a-z]`,
`\s` and `:` are pairwise disjoint, so shrinking either greedy star can
never reach a `:`. -/
def speakerMatch : List Char → Option (List Char)
  | [] => none
  | c :: cs =>
    if decide ('A' ≤ c) && decide (c ≤ 'Z') then
      match List.drop (List.takeWhile
          (fun d => decide ('a' ≤ d) && decide (d ≤ 'z')) cs).length cs with
      | rest =>
        match List.drop (List.takeWhile isPySpace rest).length rest with
        | ':' :: _ =>
          some (c :: List.takeWhile
              (fun d => decide ('a' ≤ d) && decide (d ≤ 'z')) cs
            ++ List.takeWhile isPySpace rest ++ [':'])
        | _ => none
    else none

/-- `_is_speaker_change` (lines 146–175): the current paragraph must start
with a speaker label; then it is a change iff the previous paragraph has no
label or a different one. -/
def isSpeakerChange (prev curr : List Char) : Bool :=
  match speakerMatch curr with
  | none => false
  | some cm =>
    match speakerMatch prev with
    | none => true
    | some pm => decide (pm ≠ cm)

/-- Python's `\w` class restricted to ASCII. -/
def isWordChar (c : Char) : Bool :=
  decide ('a' ≤ c) && decide (c ≤ 'z') ||
  decide ('A' ≤ c) && decide (c ≤ 'Z') ||
  decide ('0' ≤ c) && decide (c ≤ '9') || decide (c = '_')

/-- ASCII lower-casing, the effect of `re.IGNORECASE` on the all-ASCII
topic-indicator phrases. -/
def lowerAscii (c : Char) : Char :=
  if decide ('A' ≤ c) && decide (c ≤ 'Z') then Char.ofNat (c.toNat + 32)
  else c

/-- Case-insensitive literal match of `phrase` at the head of `w`. -/
def matchesAt : List Char → List Char → Bool
  | [], _ => true
  | _ :: _, [] => false
  | p :: ps, w :: ws => decide (lowerAscii w = p) && matchesAt ps ws

/-- Match of `\b<phrase>\b` anchored at the head of `w` (each phrase starts
and ends with a letter, so each `\b` demands a non-word character or the
text edge on the outside). -/
def matchHere (phrase w : List Char) : Bool :=
  matchesAt phrase w &&
    match List.drop phrase.length w with
    | [] => true
    | c :: _ => !isWordChar c

/-- `re.search` of `\b<phrase>\b` in `w`, with `prevc` the character just
before `w` (`none` at the start of the text). -/
def hasBoundedMatch (phrase : List Char) : Option Char → List Char → Bool
  | prevc, [] =>
    (match prevc with | none => true | some c => !isWordChar c) &&
      matchHere phrase []
  | prevc, c :: cs =>
    ((match prevc with | none => true | some c => !isWordChar c) &&
      matchHere phrase (c :: cs)) || hasBoundedMatch phrase (some c) cs

/-- The 18 topic-indicator phrases (lines 189–196), without their `\b`
wrappers. -/
def topicIndicators : List (List Char) :=
  ["next", "now", "another", "moving on", "let's talk about",
   "turning to", "regarding", "on another note", "speaking of",
   "in terms of", "firstly", "secondly", "thirdly", "finally",
   "to begin with", "lastly", "in conclusion",
   "to summarize"].map String.toList

/-- `_has_topic_change_indicators` (lines 177–203): search each phrase,
case-insensitively, in the first 50 characters of the current paragraph
(the previous paragraph is ignored by the Python body too). -/
def hasTopicChangeIndicators (_prev curr : List Char) : Bool :=
  topicIndicators.any fun ind => hasBoundedMatch ind none (List.take 50 curr)

/-- One record of `_identify_boundaries` (lines 138–142). -/
structure Boundary where
  index : ℕ
  position : ℕ
  score : ℕ
deriving Repr, DecidableEq

/-- Loop of `_identify_boundaries`: `i` is the index of the current
paragraph `p`, `cum` the total length of the paragraphs before it, `prev`
the previous paragraph. -/
def identifyBoundariesAux (cfg : SegConfig) :
    ℕ → ℕ → List Char → List (List Char) → List Boundary
  | _, _, _, [] => []
  | i, cum, prev, p :: rest =>
    ⟨i, cum,
      (if isSpeakerChange prev p then cfg.speaker_change_weight else 0) +
        cfg.paragraph_break_weight +
        (if hasTopicChangeIndicators prev p then cfg.topic_change_weight
         else 0)⟩ ::
      identifyBoundariesAux cfg (i + 1) (cum + p.length) p rest

/-- `_identify_boundaries` (lines 102–144): the first paragraph is never a
boundary; `position = cumulative_length - paragraph_length` is the length
of everything before the paragraph. -/
def identifyBoundaries (cfg : SegConfig) : List (List Char) → List Boundary
  | [] => []
  | p0 :: rest => identifyBoundariesAux cfg 1 p0.length p0 rest

/-- Stable descending insertion by score: an element placed before the
first strictly-smaller-or-equal score would break stability, so it goes
before the first element whose score it is ≥ — matching Python's stable
`sorted(..., reverse=True)`. -/
def insertByScoreDesc (b : Boundary) : List Boundary → List Boundary
  | [] => [b]
  | d :: ds =>
    if d.score ≤ b.score then b :: d :: ds else d :: insertByScoreDesc b ds

/-- `sorted(boundaries, key=score, reverse=True)` (line 227), stable. -/
def sortByScoreDesc : List Boundary → List Boundary
  | [] => []
  | b :: bs => insertByScoreDesc b (sortByScoreDesc bs)

/-- Stable ascending insertion by position. -/
def insertByPos (b : Boundary) : List Boundary → List Boundary
  | [] => [b]
  | d :: ds =>
    if b.position ≤ d.position then b :: d :: ds else d :: insertByPos b ds

/-- `sorted(top_boundaries, key=position)` (line 233), stable. -/
def sortByPos : List Boundary → List Boundary
  | [] => []
  | b :: bs => insertByPos b (sortByPos bs)

/-- `"\n\n".join(paragraphs)`. -/
def joinParas : List (List Char) → List Char
  | [] => []
  | [p] => p
  | p :: q :: ps => p ++ '\n' :: '\n' :: joinParas (q :: ps)

/-- Segment-building loop of `_create_segments` (lines 239–252): a slice
`paragraphs[start:end]` is appended (and `start` advanced) only if it
reaches `min_segment_size` or starts at index 0; otherwise NOTHING happens
to it — this is the guard that can silently drop trailing content. -/
def buildSegments (cfg : SegConfig) (ps : List (List Char)) :
    List Boundary → ℕ → List (List Char) → List (List Char)
  | [], _, acc => acc.reverse
  | b :: bs, start, acc =>
    if cfg.min_segment_size ≤ (joinParas ((ps.drop start).take
        (b.index - start))).length ∨ start = 0 then
      buildSegments cfg ps bs b.index
        (joinParas ((ps.drop start).take (b.index - start)) :: acc)
    else buildSegments cfg ps bs start acc

/-- Lines 255–257: if the last built segment is under `min_segment_size`
(and there are at least two), merge it into the previous one. -/
def mergeLastIfSmall (cfg : SegConfig) (segs : List (List Char)) :
    List (List Char) :=
  match segs.reverse with
  | last :: penult :: rest =>
    if last.length < cfg.min_segment_size then
      ((penult ++ '\n' :: '\n' :: last) :: rest).reverse
    else segs
  | _ => segs

/-- Match-end positions of `re.finditer(r'[.!?]\s+', search_text)`
(line 342): leftmost non-overlapping matches, the greedy `\s+` consuming
the whole whitespace run (nothing follows it in the pattern).  `pos` is the
offset of the head of `cs` in the search window. -/
def sentenceEndScan : ℕ → ℕ → List Char → List ℕ
  | 0, _, _ => []
  | _ + 1, _, [] => []
  | fuel + 1, pos, c :: rest =>
    if (c = '.' || c = '!' || c = '?') &&
        (match rest with | r :: _ => isPySpace r | [] => false) then
      (pos + 1 + (List.takeWhile isPySpace rest).length) ::
        sentenceEndScan fuel
          (pos + 1 + (List.takeWhile isPySpace rest).length)
          (List.drop (List.takeWhile isPySpace rest).length rest)
    else sentenceEndScan fuel (pos + 1) rest

/-- First minimiser of `|e - t|` in the list, seeded with `best` — Python's
`min(..., key=...)` keeps the first minimum. -/
def closestTo (t : ℕ) : ℕ → List ℕ → ℕ
  | best, [] => best
  | best, e :: es =>
    if max e t - min e t < max best t - min best t then closestTo t e es
    else closestTo t best es

/-- `_find_sentence_break` (lines 323–354): search a ±1000-character window
around `target` for the sentence-ending match whose end is closest to the
target, falling back to the target itself. -/
def findSentenceBreak (_cfg : SegConfig) (text : List Char) (target : ℕ) :
    ℕ :=
  match sentenceEndScan
      ((min text.length (target + 1000) - (target - 1000)) + 1) 0
      ((text.drop (target - 1000)).take
        (min text.length (target + 1000) - (target - 1000))) with
  | [] => target
  | e :: es => (target - 1000) + closestTo (target - (target - 1000)) e es

/-- One pass of the `for i in range(0, len(paragraphs), pps)` loop of
`_split_long_segment` (lines 296–319): either the loop runs to completion
(`Sum.inl` of the collected sub-segments), or it hits a too-long non-final
chunk, emits the collected segments plus the pre-break part, and hands the
remainder back for a recursive split (`Sum.inr`). -/
def splitLongPass (cfg : SegConfig) (ps : List (List Char)) (pps : ℕ) :
    ℕ → ℕ → List (List Char) →
    List (List Char) ⊕ (List (List Char) × List Char)
  | 0, _, acc => Sum.inl acc.reverse
  | loopFuel + 1, i, acc =>
    if i < ps.length then
      if i + pps < ps.length &&
          cfg.max_segment_size < (joinParas ((ps.drop i).take pps)).length
      then
        Sum.inr
          (acc.reverse ++
            [(joinParas ((ps.drop i).take pps)).take
              (findSentenceBreak cfg (joinParas ((ps.drop i).take pps))
                cfg.target_segment_size)],
           (joinParas ((ps.drop i).take pps)).drop
             (findSentenceBreak cfg (joinParas ((ps.drop i).take pps))
               cfg.target_segment_size))
      else
        splitLongPass cfg ps pps loopFuel (i + pps)
          (joinParas ((ps.drop i).take pps) :: acc)
    else Sum.inl acc.reverse

/-- `_split_long_segment` (lines 272–321).  `paragraphs_per_segment` can be
zero (more target-size multiples than paragraphs), upon which Python's
`range(0, n, 0)` raises `ValueError: range() arg 3 must not be zero` — an
uncaught exception modelled as `Except.error`.  The fuel bounds the Python
recursion depth (exhaustion models `RecursionError`); a fuel of
`len(segment) + 1` covers every terminating run. -/
def splitLongSegment (cfg : SegConfig) : ℕ → List Char →
    Except String (List (List Char))
  | 0, _ => Except.error "maximum recursion depth exceeded"
  | fuel + 1, seg =>
    if seg.length ≤ cfg.max_segment_size then Except.ok [seg]
    else
      if (splitIntoParagraphs seg).length /
          max 2 (⌈(seg.length : ℚ) /
            (cfg.target_segment_size : ℚ)⌉.toNat) = 0 then
        Except.error "range() arg 3 must not be zero"
      else
        match splitLongPass cfg (splitIntoParagraphs seg)
            ((splitIntoParagraphs seg).length /
              max 2 (⌈(seg.length : ℚ) /
                (cfg.target_segment_size : ℚ)⌉.toNat))
            ((splitIntoParagraphs seg).length + 1) 0 [] with
        | Sum.inl segs => Except.ok segs
        | Sum.inr (pre, remaining) =>
          match splitLongSegment cfg fuel remaining with
          | Except.ok rem => Except.ok (pre ++ rem)
          | Except.error e => Except.error e

/-- Final loop of `_create_segments` (lines 260–267): oversize segments are
split, the rest pass through; the first exception wins. -/
def splitAllLong (cfg : SegConfig) : List (List Char) →
    Except String (List (List Char))
  | [] => Except.ok []
  | s :: ss =>
    if cfg.max_segment_size < s.length then
      match splitLongSegment cfg (s.length + 1) s with
      | Except.error e => Except.error e
      | Except.ok subs =>
        match splitAllLong cfg ss with
        | Except.ok rest => Except.ok (subs ++ rest)
        | Except.error e => Except.error e
    else
      match splitAllLong cfg ss with
      | Except.ok rest => Except.ok (s :: rest)
      | Except.error e => Except.error e

/-- Line 218: `ideal_num_segments = max(1, round(total_length /
target_segment_size))`, the float division modelled as exact `ℚ`
division. -/
def idealNumSegments (cfg : SegConfig) (total : ℕ) : ℕ :=
  max 1 (pyRound ((total : ℚ) / (cfg.target_segment_size : ℚ))).toNat

/-- `_create_segments` (lines 205–270): pick the `ideal - 1` best-scoring
boundaries, add the end-of-text boundary, build segments, merge an
undersized last segment, split oversized ones. -/
def createSegments (cfg : SegConfig) (ps : List (List Char))
    (bs : List Boundary) : Except String (List (List Char)) :=
  if idealNumSegments cfg (ps.map List.length).sum = 1 then
    Except.ok [joinParas ps]
  else
    splitAllLong cfg
      (mergeLastIfSmall cfg
        (buildSegments cfg ps
          (sortByPos ((sortByScoreDesc bs).take
              (idealNumSegments cfg (ps.map List.length).sum - 1)) ++
            [⟨ps.length, (ps.map List.length).sum, 0⟩])
          0 []))

/-- `segment_transcript` (lines 53–82): short texts pass through whole;
otherwise split into paragraphs, score boundaries, build segments. -/
def segmentTranscript (cfg : SegConfig) (text : List Char) :
    Except String (List (List Char)) :=
  if text.length ≤ cfg.target_segment_size then Except.ok [text]
  else
    createSegments cfg (splitIntoParagraphs text)
      (identifyBoundaries cfg (splitIntoParagraphs text))

deriving instance DecidableEq for Except

/-- Config for the C7 counterexample: scaled-down sizes (all three size
keys overridden, weights left at their defaults). -/
def c7Config : SegConfig :=
  { target_segment_size := 10, min_segment_size := 8, max_segment_size := 30 }

/-- Input for the C7 counterexample: three paragraphs of lengths 12, 12
and 2; total text length 30 > target 10. -/
def c7Text : List Char := "aaaaaaaaaaaa\n\nbbbbbbbbbbbb\n\ncc".toList

/-- C7: REFUTED — the segmenter does not always cover the input.  On
`c7Text` with `c7Config` it returns only the first two paragraphs: the
trailing paragraph run between the last selected boundary and the end of
the text is shorter than `min_segment_size`, so the append guard in
`_create_segments` (line 250) skips it and the content is silently
dropped (the characters `c`, present twice in the input, appear in no
returned segment), so the segments cannot be concatenated back to the
input with any separators. -/
theorem c7_trailing_content_dropped :
    segmentTranscript c7Config c7Text =
      Except.ok ["aaaaaaaaaaaa".toList, "bbbbbbbbbbbb".toList] ∧
    c7Text.count 'c' = 2 ∧
    (["aaaaaaaaaaaa".toList,
      "bbbbbbbbbbbb".toList].map fun s => s.count 'c').sum = 0 := by
  refine ⟨?_, by decide, by decide⟩
  have hfl : (⌊(26 : ℚ)/10⌋ : ℤ) = 2 := by
    rw [Int.floor_eq_iff]
    constructor <;> norm_num
  have h1 : pyRound ((26 : ℚ)/10) = 3 := by
    unfold pyRound
    rw [hfl, if_neg (by norm_num), if_pos (by norm_num)]
    norm_num
  have hcast : ((26 : ℕ) : ℚ) / ((c7Config.target_segment_size : ℕ) : ℚ) =
      (26 : ℚ)/10 := by
    norm_num [c7Config]
  have hideal : idealNumSegments c7Config 26 = 3 := by
    unfold idealNumSegments
    rw [hcast, h1]
    decide
  have hps : splitIntoParagraphs c7Text =
      ["aaaaaaaaaaaa".toList, "bbbbbbbbbbbb".toList, "cc".toList] := by
    decide
  have hbs : identifyBoundaries c7Config
      ["aaaaaaaaaaaa".toList, "bbbbbbbbbbbb".toList, "cc".toList] =
      [⟨1, 12, 3⟩, ⟨2, 24, 3⟩] := by decide
  have hsum : ((["aaaaaaaaaaaa".toList, "bbbbbbbbbbbb".toList,
      "cc".toList].map List.length).sum) = 26 := by decide
  unfold segmentTranscript
  rw [if_neg (by decide), hps, hbs]
  unfold createSegments
  rw [hsum, hideal, if_neg (by decide)]
  decide

end TranscriptPipeline
